import Mathlib

/-!
Verification of the paperboy repository: a shallow embedding of the
identifier normalizers (`retriever.py`, `patent_retriever.py`), the disk
LRU cache (`cache.py`), the bulk-file scanners
(`index_arxiv_bulk_files.py`, `index_uspto_bulk_files.py`) and the
tiered retrieval engine (`PaperRetriever.get_source_by_id`), together
with proofs and refutations of the specification claims.

Strings are modelled as `List Char`; byte strings as `List Nat`.
Python regular-expression digit and letter classes are modelled over
ASCII.
-/

abbrev Str := List Char

/-- Characters stripped by Python `str.strip()` (the `str.isspace` set),
given by code point: TAB..CR, FS..US and space, NEL, NBSP, Ogham space
mark, the U+2000 block, LS, PS, NNBSP, MMSP, and ideographic space. -/
def pySpace (c : Char) : Bool :=
  c.toNat ∈ [9, 10, 11, 12, 13, 28, 29, 30, 31, 32, 133, 160,
    5760, 8192, 8193, 8194, 8195, 8196, 8197, 8198, 8199, 8200,
    8201, 8202, 8232, 8233, 8239, 8287, 12288]

/-- Python `s.strip()`: drop leading and trailing whitespace. -/
def pyStrip (s : Str) : Str :=
  ((s.dropWhile pySpace).reverse.dropWhile pySpace).reverse

/-- ASCII decimal digit, the model of the regex class `\d`. -/
def pyDigit (c : Char) : Bool := 48 ≤ c.toNat && c.toNat ≤ 57

/-- Numeric value of a decimal digit string, the model of Python `int(...)`. -/
def digitsToNat (s : Str) : Nat :=
  s.foldl (fun a c => a * 10 + (c.toNat - '0'.toNat)) 0

/-- ASCII lowering of a character's code point (Python `str.lower` on
the ASCII range, used to model `re.IGNORECASE`). -/
def lowerNat (c : Char) : Nat :=
  if 65 ≤ c.toNat && c.toNat ≤ 90 then c.toNat + 32 else c.toNat

/-- Case-insensitive character comparison (ASCII lowering, the model of
`re.IGNORECASE` matching of literal characters). -/
def ciEq (a b : Char) : Bool := lowerNat a = lowerNat b

/-- Case-insensitively strip the literal `pre` from the front of `s`,
returning the remainder on a match. -/
def dropCI : Str → Str → Option Str
  | [], s => some s
  | _ :: _, [] => none
  | p :: ps, c :: cs => if ciEq p c then dropCI ps cs else none

/-- Case-insensitive test that `s` ends with the literal `suf`. -/
def endsWithCI (suf s : Str) : Bool :=
  (dropCI suf.reverse s.reverse).isSome

/-- The capture group of the URL pattern
`https?://(?:export\.)?arxiv\.org/(?:abs|pdf)/(.+?)(?:\.pdf)?$`
(`re.match`, `re.IGNORECASE`), or `none` when the pattern does not
match.  The lazy group together with the optional `.pdf` tail means:
the group is the whole tail minus a trailing `.pdf` when one is
present (and the group stays non-empty), otherwise the whole non-empty
tail.  The second URL pattern in `parse_paper_id` (the one that also
allows a query string) can only be tried after this one failed, and it
then fails as well, so it needs no separate model. -/
def urlExtract (s : Str) : Option Str :=
  match dropCI ['h','t','t','p'] s with
  | none => none
  | some r1 =>
    let afterScheme : Option Str :=
      match dropCI ['s',':','/','/'] r1 with
      | some r2 => some r2
      | none => dropCI [':','/','/'] r1
    match afterScheme with
    | none => none
    | some r2 =>
      let afterHost : Option Str :=
        match dropCI ['e','x','p','o','r','t','.'] r2 with
        | some r3 => dropCI ['a','r','x','i','v','.','o','r','g','/'] r3
        | none => dropCI ['a','r','x','i','v','.','o','r','g','/'] r2
      match afterHost with
      | none => none
      | some r4 =>
        let tail : Option Str :=
          match dropCI ['a','b','s','/'] r4 with
          | some t => some t
          | none => dropCI ['p','d','f','/'] r4
        match tail with
        | none => none
        | some t =>
          if t = [] then none
          else if 5 ≤ t.length && endsWithCI ['.','p','d','f'] t then
            some (t.take (t.length - 4))
          else some t

/-- The URL-stripping step of `parse_paper_id`: replace the string by
the captured group when the URL pattern matches. -/
def stripUrl (s : Str) : Str :=
  match urlExtract s with
  | some g => g
  | none => s

/-- The prefix-stripping step `re.sub(r'^arxiv:\s*', '', s, re.IGNORECASE)`. -/
def stripArxivPre (s : Str) : Str :=
  match dropCI ['a','r','x','i','v',':'] s with
  | some r => r.dropWhile pySpace
  | none => s

/-- The version-extraction step: `re.search(r'v(\d+)$', s)` removes the
leftmost `v` that is followed by a non-empty run of digits extending to
the end of the string, returning the prefix and the parsed number. -/
def splitVersion : Str → Str × Option Nat
  | [] => ([], none)
  | c :: rest =>
    if c = 'v' && !rest.isEmpty && rest.all pyDigit then
      ([], some (digitsToNat rest))
    else
      let p := splitVersion rest
      (c :: p.1, p.2)

/-- The legacy-slash step: when the string contains exactly one `/`
(`split('/')` yields two parts), concatenate the two parts. -/
def joinSingleSlash (s : Str) : Str :=
  if s.count '/' = 1 then s.filter (fun c => c ≠ '/') else s

/-- `parse_paper_id` (retriever.py lines 15-59): strip whitespace, strip
URL framing, strip a leading `arXiv:` prefix, split off a trailing
`v<digits>` version, and join a single-slash legacy identifier. -/
def parse_paper_id (s : Str) : Str × Option Nat :=
  let s1 := pyStrip s
  let s2 := stripUrl s1
  let s3 := stripArxivPre s2
  let p := splitVersion s3
  (joinSingleSlash p.1, p.2)

/-- `normalize_paper_id` (retriever.py lines 62-68). -/
def normalize_paper_id (s : Str) : Str :=
  (parse_paper_id s).1

example : parse_paper_id "arXiv:1501.00963v3".data = ("1501.00963".data, some 3) := by decide
example : parse_paper_id "1501.00963".data = ("1501.00963".data, none) := by decide
example : parse_paper_id "astro-ph/0412561v1".data = ("astro-ph0412561".data, some 1) := by decide
example : parse_paper_id "https://arxiv.org/abs/1501.00963".data = ("1501.00963".data, none) := by decide
example : parse_paper_id "https://arxiv.org/pdf/1501.00963.pdf".data = ("1501.00963".data, none) := by decide

/-- Helper: when the version pattern does not match, the version step
leaves the string unchanged. -/
theorem splitVersion_none (s : Str) (h : (splitVersion s).2 = none) :
    (splitVersion s).1 = s := by
  induction s with
  | nil => rfl
  | cons c rest ih =>
    by_cases hc : (c = 'v' && !rest.isEmpty && rest.all pyDigit) = true
    · simp [splitVersion, hc] at h
    · simp [splitVersion, hc] at h ⊢
      exact ih h

/-- Claim C9 (counterexample): the input `" x "` matches none of the
recognized patterns (no URL framing, no leading `arXiv:` prefix, no
trailing `v<digits>` suffix, no single-slash legacy form), yet
`parse_paper_id` does not return it unchanged: surrounding whitespace
is stripped. -/
theorem parse_paper_id_unchanged_cex :
    urlExtract " x ".data = none ∧
    dropCI "arxiv:".data " x ".data = none ∧
    (splitVersion " x ".data).2 = none ∧
    " x ".data.count '/' ≠ 1 ∧
    parse_paper_id " x ".data ≠ (" x ".data, none) := by
  decide

/-- Helper: an input matching none of the parser's patterns and with no
surrounding whitespace is a fixed point of `parse_paper_id`. -/
theorem parse_fix_of_no_pattern (s : Str)
    (hstrip : pyStrip s = s)
    (hurl : urlExtract s = none)
    (hpre : dropCI "arxiv:".data s = none)
    (hver : (splitVersion s).2 = none)
    (hslash : s.count '/' ≠ 1) :
    parse_paper_id s = (s, none) := by
  have hu : stripUrl s = s := by unfold stripUrl; rw [hurl]
  have hp : stripArxivPre s = s := by
    unfold stripArxivPre
    rw [show dropCI ['a','r','x','i','v',':'] s = none from hpre]
  have h1 := splitVersion_none s hver
  simp only [parse_paper_id, hstrip, hu, hp, h1, hver, joinSingleSlash]
  simp [hslash]

/-- Claim C9 (amended): the parser is modelled by a total function
(`parse_paper_id` never raises), and an input in which none of the
recognized patterns occurs — no arXiv URL framing, no leading `arXiv:`
prefix, no trailing `v<digits>` suffix, no single-slash legacy form —
and which additionally carries no leading or trailing whitespace, is
returned unchanged with no version. -/
theorem parse_paper_id_unchanged (s : Str)
    (hstrip : pyStrip s = s)
    (hurl : urlExtract s = none)
    (hpre : dropCI "arxiv:".data s = none)
    (hver : (splitVersion s).2 = none)
    (hslash : s.count '/' ≠ 1) :
    parse_paper_id s = (s, none) :=
  parse_fix_of_no_pattern s hstrip hurl hpre hver hslash

/-- Witness for the amended Claim C9 theorem at the concrete input
`"abc"`. -/
theorem parse_paper_id_unchanged_witness :
    parse_paper_id "abc".data = ("abc".data, none) :=
  parse_paper_id_unchanged "abc".data (by decide) (by decide) (by decide)
    (by decide) (by decide)

/-- Category characters of the legacy arXiv identifier grammar, the
class `[a-z-]` matched under `re.IGNORECASE`. -/
def catChar (c : Char) : Bool :=
  (65 ≤ c.toNat && c.toNat ≤ 90) || (97 ≤ c.toNat && c.toNat ≤ 122) || c = '-'

/-- A modern-format arXiv base identifier, the pattern
`^(\d{2})(\d{2})\.(\d+)$` of `get_expected_tar_pattern`. -/
def legalModern (s : Str) : Bool :=
  match s with
  | d1 :: d2 :: d3 :: d4 :: c :: rest =>
    pyDigit d1 && pyDigit d2 && pyDigit d3 && pyDigit d4 && c = '.' &&
    !rest.isEmpty && rest.all pyDigit
  | _ => false

/-- A joined legacy arXiv base identifier, the pattern
`^([a-z-]+)(\d{2})(\d{2})(\d+)$` (IGNORECASE) of
`get_expected_tar_pattern`. -/
def legalOldJoined (s : Str) : Bool :=
  let cat := s.takeWhile catChar
  let ds := s.dropWhile catChar
  !cat.isEmpty && 5 ≤ ds.length && ds.all pyDigit

/-- A legacy arXiv base identifier in the original slash form
(`category/number`, the form joined by `parse_paper_id`). -/
def legalOldSlash (s : Str) : Bool :=
  let cat := s.takeWhile catChar
  match s.dropWhile catChar with
  | c :: ds => !cat.isEmpty && c = '/' && 5 ≤ ds.length && ds.all pyDigit
  | [] => false

/-- A legal arXiv base identifier: one of the three grammars the
repository recognizes. -/
def legalBaseId (s : Str) : Bool :=
  legalModern s || legalOldJoined s || legalOldSlash s

/-- A base identifier together with an optional version digit string
(`<base>` or `<base>v<digits>`). -/
def coreForm (b : Str) (v : Option Str) : Str :=
  match v with
  | none => b
  | some ds => b ++ 'v' :: ds

/-- Well-formedness of the optional version digit string. -/
def vOk : Option Str → Prop
  | none => True
  | some ds => ds ≠ [] ∧ ds.all pyDigit = true

/-- The supported outer framings of an arXiv identifier: bare, with the
`arXiv:` prefix, or as an abstract / PDF arxiv.org URL. -/
inductive Framing | plain | prefixed | urlAbs | urlPdf

/-- Wrap an identifier in one of the supported framings. -/
def applyFraming : Framing → Str → Str
  | .plain, s => s
  | .prefixed, s => "arXiv:".data ++ s
  | .urlAbs, s => "https://arxiv.org/abs/".data ++ s
  | .urlPdf, s => "https://arxiv.org/pdf/".data ++ s ++ ".pdf".data

example : legalBaseId "1501.00963".data = true := by decide
example : legalBaseId "astro-ph0412561".data = true := by decide
example : legalBaseId "astro-ph/0412561".data = true := by decide
example : legalBaseId "catv12345".data = true := by decide
example : legalBaseId "1501".data = false := by decide

/-! Character-level and list-level helper lemmas. -/

theorem char_toNat_inj {a b : Char} (h : a.toNat = b.toNat) : a = b := by
  exact_mod_cast Char.ofNat_toNat a ▸ Char.ofNat_toNat b ▸ congrArg Char.ofNat h

theorem pySpace_eq_false {c : Char} (h1 : 33 ≤ c.toNat) (h2 : c.toNat ≤ 132) :
    pySpace c = false := by
  simp only [pySpace, List.mem_cons, List.not_mem_nil, decide_eq_false_iff_not]
  push_neg
  simp only [not_false_eq_true, and_true]
  omega

theorem dropWhile_eq_self_of {p : Char → Bool} {s : Str}
    (h : ∀ c ∈ s, p c = false) : s.dropWhile p = s := by
  cases s with
  | nil => rfl
  | cons c t => simp [List.dropWhile_cons, h c (by simp)]

theorem pyStrip_eq_self {s : Str} (h : ∀ c ∈ s, pySpace c = false) :
    pyStrip s = s := by
  unfold pyStrip
  rw [dropWhile_eq_self_of h,
    dropWhile_eq_self_of (fun c hc => h c (List.mem_reverse.mp hc)),
    List.reverse_reverse]

theorem lowerNat_of_not_upper {c : Char} (h : ¬(65 ≤ c.toNat ∧ c.toNat ≤ 90)) :
    lowerNat c = c.toNat := by
  simp only [lowerNat, Bool.and_eq_true, decide_eq_true_eq, ite_eq_right_iff]
  omega

theorem lowerNat_range {c : Char} :
    lowerNat c = c.toNat ∨ (65 ≤ c.toNat ∧ c.toNat ≤ 90 ∧ lowerNat c = c.toNat + 32) := by
  by_cases h : (65 ≤ c.toNat && c.toNat ≤ 90) = true
  · right
    simp only [Bool.and_eq_true, decide_eq_true_eq] at h
    exact ⟨h.1, h.2, by simp [lowerNat, h.1, h.2]⟩
  · left
    simp only [Bool.and_eq_true, decide_eq_true_eq, not_and, not_le] at h
    exact lowerNat_of_not_upper (by omega)

theorem ciEq_colon {c : Char} (h : ciEq ':' c = true) : c = ':' := by
  have h0 : lowerNat ':' = 58 := by decide
  simp only [ciEq, h0, decide_eq_true_eq] at h
  rcases lowerNat_range (c := c) with h1 | ⟨h1, h2, h3⟩
  · exact char_toNat_inj (by rw [← h1, ← h]; decide)
  · omega

theorem dropCI_append {p s r : Str} (h : dropCI p s = some r) :
    ∃ q, s = q ++ r ∧ List.Forall₂ (fun a b => ciEq a b = true) p q := by
  induction p generalizing s with
  | nil =>
    refine ⟨[], ?_, List.Forall₂.nil⟩
    have hh : some s = some r := by simpa [dropCI] using h
    exact List.nil_append r ▸ Option.some.inj hh
  | cons a ps ih =>
    cases s with
    | nil => simp [dropCI] at h
    | cons c cs =>
      by_cases hc : ciEq a c = true
      · simp only [dropCI, hc, if_true] at h
        obtain ⟨q, hq, hf⟩ := ih h
        exact ⟨c :: q, by simp [hq], List.Forall₂.cons hc hf⟩
      · simp [dropCI, hc] at h

theorem forall2_exists_mem {R : Char → Char → Prop} :
    ∀ {p q : Str}, List.Forall₂ R p q → ∀ a ∈ p, ∃ b ∈ q, R a b := by
  intro p q h
  induction h with
  | nil => intro a ha; simp at ha
  | cons hR _ ih =>
    intro a ha
    rcases List.mem_cons.mp ha with rfl | ha'
    · exact ⟨_, by simp, hR⟩
    · obtain ⟨b, hb, hrb⟩ := ih a ha'
      exact ⟨b, by simp [hb], hrb⟩

theorem colon_mem_of_dropCI {p s r : Str} (hp : ':' ∈ p)
    (h : dropCI p s = some r) : ':' ∈ s := by
  obtain ⟨q, rfl, hf⟩ := dropCI_append h
  obtain ⟨b, hb, hrb⟩ := forall2_exists_mem hf ':' hp
  have : b = ':' := ciEq_colon hrb
  subst this
  exact List.mem_append_left _ hb

theorem urlExtract_none_of_no_colon {s : Str} (h : ':' ∉ s) :
    urlExtract s = none := by
  cases hh : dropCI ['h','t','t','p'] s with
  | none => simp [urlExtract, hh]
  | some r1 =>
    obtain ⟨q1, hq1, _⟩ := dropCI_append hh
    have hr1 : ':' ∉ r1 := fun hc => h (hq1 ▸ List.mem_append_right _ hc)
    cases hs : dropCI ['s',':','/','/'] r1 with
    | some r2 =>
      exact absurd (colon_mem_of_dropCI (by decide) hs) hr1
    | none =>
      cases hs2 : dropCI [':','/','/'] r1 with
      | some r2 =>
        exact absurd (colon_mem_of_dropCI (by decide) hs2) hr1
      | none => simp [urlExtract, hh, hs, hs2]

theorem stripArxivPre_none_of_no_colon {s : Str} (h : ':' ∉ s) :
    dropCI "arxiv:".data s = none := by
  cases hh : dropCI "arxiv:".data s with
  | none => rfl
  | some r => exact absurd (colon_mem_of_dropCI (by decide) hh) h

/-! Behavior of the version splitter on structured strings. -/

theorem pyDigit_ne_v {c : Char} (h : pyDigit c = true) : c ≠ 'v' := by
  simp only [pyDigit, Bool.and_eq_true, decide_eq_true_eq] at h
  intro he
  subst he
  revert h
  decide

theorem splitVersion_append_v {b ds : Str} (h1 : ds ≠ [])
    (h2 : ds.all pyDigit = true) :
    splitVersion (b ++ 'v' :: ds) = (b, some (digitsToNat ds)) := by
  induction b with
  | nil =>
    simp only [List.nil_append, splitVersion]
    rw [if_pos]
    simp [h1, h2]
  | cons c b' ih =>
    have hall : (b' ++ 'v' :: ds).all pyDigit = false := by
      rw [List.all_eq_false]
      exact ⟨'v', by simp, by decide⟩
    have hcond : (c = 'v' && !(b' ++ 'v' :: ds).isEmpty &&
        (b' ++ 'v' :: ds).all pyDigit) = false := by simp [hall]
    simp only [List.cons_append, splitVersion, List.append_eq]
    rw [if_neg (ne_true_of_eq_false hcond)]
    simp [ih]

theorem splitVersion_all_digits {s : Str} (h : s.all pyDigit = true) :
    splitVersion s = (s, none) := by
  induction s with
  | nil => rfl
  | cons c t ih =>
    simp only [List.all_cons, Bool.and_eq_true] at h
    have hc : (c = 'v' && !t.isEmpty && t.all pyDigit) = false := by
      have := pyDigit_ne_v h.1
      simp [this]
    simp [splitVersion, hc, ih h.2]

theorem splitVersion_slash_form {s1 ds : Str}
    (hds : splitVersion ds = (ds, none)) :
    splitVersion (s1 ++ '/' :: ds) = (s1 ++ '/' :: ds, none) := by
  induction s1 with
  | nil =>
    have hc : ¬((('/' : Char) = 'v' && !ds.isEmpty && ds.all pyDigit) = true) := by
      simp [show ('/' : Char) ≠ 'v' from by decide]
    simp only [List.nil_append, splitVersion]
    rw [if_neg hc]
    simp [hds]
  | cons c s1' ih =>
    have hall : (s1' ++ '/' :: ds).all pyDigit = false := by
      rw [List.all_eq_false]
      exact ⟨'/', by simp, by decide⟩
    have hc : (c = 'v' && !(s1' ++ '/' :: ds).isEmpty &&
        (s1' ++ '/' :: ds).all pyDigit) = false := by simp [hall]
    simp only [List.cons_append, splitVersion, List.append_eq]
    rw [if_neg (ne_true_of_eq_false hc)]
    simp [ih]

/-! Character sets of legal base identifiers. -/

/-- Characters that can occur in a legal arXiv base identifier. -/
def baseChar (c : Char) : Bool :=
  catChar c || pyDigit c || c = '.' || c = '/'

theorem baseChar_facts {c : Char} (h : baseChar c = true) :
    45 ≤ c.toNat ∧ c.toNat ≤ 122 ∧ c.toNat ≠ 58 := by
  simp only [baseChar, catChar, pyDigit, Bool.or_eq_true, Bool.and_eq_true,
    decide_eq_true_eq] at h
  rcases h with ((((⟨h1, h2⟩ | ⟨h1, h2⟩) | hc) | ⟨h1, h2⟩) | hc) | hc
  · omega
  · omega
  · subst hc; decide
  · omega
  · subst hc; decide
  · subst hc; decide

theorem pyDigit_baseChar {c : Char} (h : pyDigit c = true) : baseChar c = true := by
  simp [baseChar, h]

theorem catChar_baseChar {c : Char} (h : catChar c = true) : baseChar c = true := by
  simp [baseChar, h]

theorem catChar_ne_slash {c : Char} (h : catChar c = true) : c ≠ '/' := by
  simp only [catChar, Bool.or_eq_true, Bool.and_eq_true, decide_eq_true_eq] at h
  rcases h with (⟨h1, h2⟩ | ⟨h1, h2⟩) | hc
  · intro he; subst he; revert h1; decide
  · intro he; subst he; revert h1; decide
  · subst hc; decide

theorem pyDigit_ne_slash {c : Char} (h : pyDigit c = true) : c ≠ '/' := by
  simp only [pyDigit, Bool.and_eq_true, decide_eq_true_eq] at h
  intro he; subst he; revert h; decide

theorem getLast_digit_of_append {x ds : Str} (h1 : ds ≠ [])
    (h2 : ds.all pyDigit = true) :
    ∃ d, (x ++ ds).getLast? = some d ∧ pyDigit d = true := by
  rw [List.getLast?_append_of_ne_nil _ h1]
  exact ⟨ds.getLast h1, List.getLast?_eq_getLast ds h1,
    List.all_eq_true.mp h2 _ (List.getLast_mem h1)⟩

/-- Structured decomposition of the modern base identifier grammar. -/
theorem legalModern_decomp {b : Str} (h : legalModern b = true) :
    ∃ d1 d2 d3 d4 rest, b = d1 :: d2 :: d3 :: d4 :: '.' :: rest ∧
      pyDigit d1 = true ∧ pyDigit d2 = true ∧ pyDigit d3 = true ∧
      pyDigit d4 = true ∧ rest ≠ [] ∧ rest.all pyDigit = true := by
  match b, h with
  | d1 :: d2 :: d3 :: d4 :: c :: rest, h =>
    simp only [legalModern, Bool.and_eq_true, decide_eq_true_eq,
      Bool.not_eq_true', List.isEmpty_eq_false] at h
    obtain ⟨⟨⟨⟨⟨⟨h1, h2⟩, h3⟩, h4⟩, rfl⟩, h6⟩, h7⟩ := h
    exact ⟨d1, d2, d3, d4, rest, rfl, h1, h2, h3, h4, by simpa using h6, h7⟩

/-- Structured decomposition of the joined legacy grammar. -/
theorem legalOldJoined_decomp {b : Str} (h : legalOldJoined b = true) :
    ∃ cat ds, b = cat ++ ds ∧ cat ≠ [] ∧ (∀ c ∈ cat, catChar c = true) ∧
      ds ≠ [] ∧ ds.all pyDigit = true := by
  simp only [legalOldJoined, Bool.and_eq_true, decide_eq_true_eq,
    Bool.not_eq_true', List.isEmpty_eq_false] at h
  obtain ⟨⟨h1, h2⟩, h3⟩ := h
  refine ⟨b.takeWhile catChar, b.dropWhile catChar,
    (List.takeWhile_append_dropWhile catChar b).symm, by simpa using h1,
    fun c hc => List.mem_takeWhile_imp hc, ?_, h3⟩
  intro he
  rw [he] at h2
  simp at h2

/-- Structured decomposition of the slash legacy grammar. -/
theorem legalOldSlash_decomp {b : Str} (h : legalOldSlash b = true) :
    ∃ cat ds, b = cat ++ '/' :: ds ∧ cat ≠ [] ∧ (∀ c ∈ cat, catChar c = true) ∧
      ds ≠ [] ∧ ds.all pyDigit = true := by
  unfold legalOldSlash at h
  cases hd : b.dropWhile catChar with
  | nil => rw [hd] at h; simp at h
  | cons c ds =>
    rw [hd] at h
    simp only [Bool.and_eq_true, decide_eq_true_eq, Bool.not_eq_true',
      List.isEmpty_eq_false] at h
    obtain ⟨⟨⟨h1, rfl⟩, h3⟩, h4⟩ := h
    refine ⟨b.takeWhile catChar, ds, ?_, by simpa using h1,
      fun c hc => List.mem_takeWhile_imp hc, ?_, h4⟩
    · rw [← hd]; exact (List.takeWhile_append_dropWhile catChar b).symm
    · intro he; rw [he] at h3; simp at h3

/-- Characters that may appear in a supported identifier core: printable,
and in particular not whitespace and not a colon. -/
def goodChar (c : Char) : Prop :=
  45 ≤ c.toNat ∧ c.toNat ≤ 122 ∧ c.toNat ≠ 58

theorem goodChar_no_space {c : Char} (h : goodChar c) : pySpace c = false := by
  obtain ⟨h1, h2, h3⟩ := h
  exact pySpace_eq_false (by omega) (by omega)

theorem goodChar_ne_colon {c : Char} (h : goodChar c) : c ≠ ':' := by
  intro he
  subst he
  exact h.2.2 (by decide)

theorem pyDigit_good {c : Char} (h : pyDigit c = true) : goodChar c := by
  simp only [pyDigit, Bool.and_eq_true, decide_eq_true_eq] at h
  exact ⟨by omega, by omega, by omega⟩

theorem legal_chars {b : Str} (h : legalBaseId b = true) :
    ∀ c ∈ b, baseChar c = true := by
  simp only [legalBaseId, Bool.or_eq_true] at h
  rcases h with (h | h) | h
  · obtain ⟨d1, d2, d3, d4, rest, rfl, h1, h2, h3, h4, h5, h6⟩ :=
      legalModern_decomp h
    intro c hc
    simp only [List.mem_cons] at hc
    rcases hc with rfl | rfl | rfl | rfl | rfl | hc
    · exact pyDigit_baseChar h1
    · exact pyDigit_baseChar h2
    · exact pyDigit_baseChar h3
    · exact pyDigit_baseChar h4
    · decide
    · exact pyDigit_baseChar (List.all_eq_true.mp h6 _ hc)
  · obtain ⟨cat, ds, rfl, hc1, hc2, hd1, hd2⟩ := legalOldJoined_decomp h
    intro c hc
    rcases List.mem_append.mp hc with hc | hc
    · exact catChar_baseChar (hc2 _ hc)
    · exact pyDigit_baseChar (List.all_eq_true.mp hd2 _ hc)
  · obtain ⟨cat, ds, rfl, hc1, hc2, hd1, hd2⟩ := legalOldSlash_decomp h
    intro c hc
    rcases List.mem_append.mp hc with hc | hc
    · exact catChar_baseChar (hc2 _ hc)
    · rcases List.mem_cons.mp hc with rfl | hc
      · decide
      · exact pyDigit_baseChar (List.all_eq_true.mp hd2 _ hc)

theorem legal_chars_good {b : Str} (h : legalBaseId b = true) :
    ∀ c ∈ b, goodChar c :=
  fun c hc => baseChar_facts (legal_chars h c hc)

theorem legal_ne_nil {b : Str} (h : legalBaseId b = true) : b ≠ [] := by
  simp only [legalBaseId, Bool.or_eq_true] at h
  rcases h with (h | h) | h
  · obtain ⟨d1, d2, d3, d4, rest, rfl, -⟩ := legalModern_decomp h
    simp
  · obtain ⟨cat, ds, rfl, hc1, -⟩ := legalOldJoined_decomp h
    simp [hc1]
  · obtain ⟨cat, ds, rfl, hc1, -⟩ := legalOldSlash_decomp h
    simp

theorem legal_last_digit {b : Str} (h : legalBaseId b = true) :
    ∃ d, b.getLast? = some d ∧ pyDigit d = true := by
  simp only [legalBaseId, Bool.or_eq_true] at h
  rcases h with (h | h) | h
  · obtain ⟨d1, d2, d3, d4, rest, rfl, h1, h2, h3, h4, h5, h6⟩ :=
      legalModern_decomp h
    have : d1 :: d2 :: d3 :: d4 :: '.' :: rest =
        [d1, d2, d3, d4, '.'] ++ rest := by simp
    rw [this]
    exact getLast_digit_of_append h5 h6
  · obtain ⟨cat, ds, rfl, hc1, hc2, hd1, hd2⟩ := legalOldJoined_decomp h
    exact getLast_digit_of_append hd1 hd2
  · obtain ⟨cat, ds, rfl, hc1, hc2, hd1, hd2⟩ := legalOldSlash_decomp h
    have : cat ++ '/' :: ds = (cat ++ ['/']) ++ ds := by simp
    rw [this]
    exact getLast_digit_of_append hd1 hd2

theorem legal_join_count {b : Str} (h : legalBaseId b = true) :
    (joinSingleSlash b).count '/' = 0 := by
  by_cases h1 : b.count '/' = 1
  · unfold joinSingleSlash
    rw [if_pos h1, List.count_eq_zero]
    intro hc
    have := (List.mem_filter.mp hc).2
    simp at this
  · unfold joinSingleSlash
    rw [if_neg h1, List.count_eq_zero]
    intro hmem
    simp only [legalBaseId, Bool.or_eq_true] at h
    rcases h with (h | h) | h
    · obtain ⟨d1, d2, d3, d4, rest, rfl, hd1, hd2, hd3, hd4, h5, h6⟩ :=
        legalModern_decomp h
      simp only [List.mem_cons] at hmem
      rcases hmem with he | he | he | he | he | hmem
      · exact pyDigit_ne_slash hd1 he.symm
      · exact pyDigit_ne_slash hd2 he.symm
      · exact pyDigit_ne_slash hd3 he.symm
      · exact pyDigit_ne_slash hd4 he.symm
      · exact absurd he.symm (by decide)
      · exact pyDigit_ne_slash (List.all_eq_true.mp h6 _ hmem) rfl
    · obtain ⟨cat, ds, rfl, hc1, hc2, hd1, hd2⟩ := legalOldJoined_decomp h
      rcases List.mem_append.mp hmem with hc | hc
      · exact catChar_ne_slash (hc2 _ hc) rfl
      · exact pyDigit_ne_slash (List.all_eq_true.mp hd2 _ hc) rfl
    · obtain ⟨cat, ds, rfl, hc1, hc2, hd1, hd2⟩ := legalOldSlash_decomp h
      apply h1
      have hcat : cat.count '/' = 0 := List.count_eq_zero.mpr
        (fun hc => catChar_ne_slash (hc2 _ hc) rfl)
      have hds : ds.count '/' = 0 := List.count_eq_zero.mpr
        (fun hc => pyDigit_ne_slash (List.all_eq_true.mp hd2 _ hc) rfl)
      simp [List.count_append, List.count_cons, hcat, hds]

theorem joinSingleSlash_subset {b : Str} {c : Char}
    (hc : c ∈ joinSingleSlash b) : c ∈ b := by
  unfold joinSingleSlash at hc
  split at hc
  · exact (List.mem_filter.mp hc).1
  · exact hc

/-! Facts about identifier cores `<base>` / `<base>v<digits>`. -/

theorem core_chars {b : Str} {v : Option Str} (hb : ∀ c ∈ b, goodChar c)
    (hv : vOk v) : ∀ c ∈ coreForm b v, goodChar c := by
  cases v with
  | none => exact hb
  | some ds =>
    intro c hc
    rcases List.mem_append.mp hc with hc | hc
    · exact hb c hc
    · rcases List.mem_cons.mp hc with rfl | hc
      · exact ⟨by decide, by decide, by decide⟩
      · exact pyDigit_good (List.all_eq_true.mp hv.2 _ hc)

theorem core_ne_nil {b : Str} {v : Option Str} (hb : b ≠ []) :
    coreForm b v ≠ [] := by
  cases v <;> simp [coreForm, hb]

theorem splitVersion_eq_self {b : Str} (h : (splitVersion b).2 = none) :
    splitVersion b = (b, none) := by
  rw [Prod.ext_iff]
  exact ⟨splitVersion_none b h, h⟩

theorem core_splitVersion {b : Str} {v : Option Str}
    (hbs : splitVersion b = (b, none)) (hv : vOk v) :
    splitVersion (coreForm b v) = (b, Option.map digitsToNat v) := by
  cases v with
  | none => simpa [coreForm] using hbs
  | some ds => simpa [coreForm] using splitVersion_append_v hv.1 hv.2

theorem core_last_digit {b : Str} {v : Option Str}
    (hb : legalBaseId b = true) (hv : vOk v) :
    ∃ d, (coreForm b v).getLast? = some d ∧ pyDigit d = true := by
  cases v with
  | none => exact legal_last_digit hb
  | some ds =>
    have he : coreForm b (some ds) = (b ++ ['v']) ++ ds := by simp [coreForm]
    rw [he]
    exact getLast_digit_of_append hv.1 hv.2

theorem endsWithCI_pdf_false {s : Str} {d : Char} (h : s.getLast? = some d)
    (hd : pyDigit d = true) : endsWithCI ['.','p','d','f'] s = false := by
  unfold endsWithCI
  have hrev : s.reverse.head? = some d := by rw [List.head?_reverse]; exact h
  cases hr : s.reverse with
  | nil => rw [hr] at hrev; simp at hrev
  | cons e t =>
    rw [hr] at hrev
    simp only [List.head?_cons, Option.some.injEq] at hrev
    subst hrev
    have hci : ciEq 'f' e = false := by
      simp only [ciEq, decide_eq_false_iff_not]
      simp only [pyDigit, Bool.and_eq_true, decide_eq_true_eq] at hd
      have h1 : lowerNat e = e.toNat := lowerNat_of_not_upper (by omega)
      have hf : lowerNat 'f' = 102 := by decide
      rw [hf, h1]
      omega
    rw [show (['.','p','d','f'] : Str).reverse = ['f','d','p','.'] from rfl]
    simp [dropCI, hci]

/-- Unfolded body of `parse_paper_id`, convenient for rewriting. -/
theorem parse_paper_id_body (s : Str) :
    parse_paper_id s =
      (joinSingleSlash (splitVersion (stripArxivPre (stripUrl (pyStrip s)))).1,
       (splitVersion (stripArxivPre (stripUrl (pyStrip s)))).2) := rfl

/-- Workhorse: parsing a supported framed identifier strips the framing,
extracts the version, and joins a single slash in the base. -/
theorem parse_framed (f : Framing) {b : Str} {v : Option Str}
    (hb : legalBaseId b = true) (hbs : (splitVersion b).2 = none)
    (hv : vOk v) :
    parse_paper_id (applyFraming f (coreForm b v)) =
      (joinSingleSlash b, Option.map digitsToNat v) := by
  have hgood : ∀ c ∈ coreForm b v, goodChar c :=
    core_chars (legal_chars_good hb) hv
  have hnospace : ∀ c ∈ coreForm b v, pySpace c = false :=
    fun c hc => goodChar_no_space (hgood c hc)
  have hne : coreForm b v ≠ [] := core_ne_nil (legal_ne_nil hb)
  have hsv : splitVersion (coreForm b v) = (b, Option.map digitsToNat v) :=
    core_splitVersion (splitVersion_eq_self hbs) hv
  have hnocolon : (':' : Char) ∉ coreForm b v :=
    fun hc => goodChar_ne_colon (hgood _ hc) rfl
  obtain ⟨dl, hdl, hdld⟩ := core_last_digit hb hv
  have hends : endsWithCI ['.','p','d','f'] (coreForm b v) = false :=
    endsWithCI_pdf_false hdl hdld
  have h3core : stripArxivPre (coreForm b v) = coreForm b v := by
    unfold stripArxivPre
    rw [stripArxivPre_none_of_no_colon hnocolon]
  cases f with
  | plain =>
    have h1 : pyStrip (coreForm b v) = coreForm b v := pyStrip_eq_self hnospace
    have h2 : stripUrl (coreForm b v) = coreForm b v := by
      unfold stripUrl
      rw [urlExtract_none_of_no_colon hnocolon]
    show parse_paper_id (coreForm b v) = _
    rw [parse_paper_id_body, h1, h2, h3core, hsv]
  | prefixed =>
    have hlit : ∀ c ∈ "arXiv:".data, pySpace c = false := by decide
    have h1 : pyStrip ("arXiv:".data ++ coreForm b v) =
        "arXiv:".data ++ coreForm b v := by
      apply pyStrip_eq_self
      intro c hc
      rcases List.mem_append.mp hc with hm | hm
      · exact hlit c hm
      · exact hnospace c hm
    have h2 : stripUrl ("arXiv:".data ++ coreForm b v) =
        "arXiv:".data ++ coreForm b v := by
      unfold stripUrl
      rw [show urlExtract ("arXiv:".data ++ coreForm b v) = none from rfl]
    have h3 : stripArxivPre ("arXiv:".data ++ coreForm b v) = coreForm b v := by
      unfold stripArxivPre
      rw [show dropCI ['a','r','x','i','v',':'] ("arXiv:".data ++ coreForm b v)
        = some (coreForm b v) from rfl]
      exact dropWhile_eq_self_of hnospace
    show parse_paper_id ("arXiv:".data ++ coreForm b v) = _
    rw [parse_paper_id_body, h1, h2, h3, hsv]
  | urlAbs =>
    have hlit : ∀ c ∈ "https://arxiv.org/abs/".data, pySpace c = false := by
      decide
    have h1 : pyStrip ("https://arxiv.org/abs/".data ++ coreForm b v) =
        "https://arxiv.org/abs/".data ++ coreForm b v := by
      apply pyStrip_eq_self
      intro c hc
      rcases List.mem_append.mp hc with hm | hm
      · exact hlit c hm
      · exact hnospace c hm
    have hu : urlExtract ("https://arxiv.org/abs/".data ++ coreForm b v) =
        if coreForm b v = [] then none
        else if 5 ≤ (coreForm b v).length &&
            endsWithCI ['.','p','d','f'] (coreForm b v) then
          some ((coreForm b v).take ((coreForm b v).length - 4))
        else some (coreForm b v) := rfl
    have hcondF : (decide (5 ≤ (coreForm b v).length) &&
        endsWithCI ['.','p','d','f'] (coreForm b v)) = false := by
      rw [hends]
      simp
    have hurl : urlExtract ("https://arxiv.org/abs/".data ++ coreForm b v) =
        some (coreForm b v) := by
      rw [hu, if_neg hne, if_neg (ne_true_of_eq_false hcondF)]
    have h2 : stripUrl ("https://arxiv.org/abs/".data ++ coreForm b v) =
        coreForm b v := by
      unfold stripUrl
      rw [hurl]
    show parse_paper_id ("https://arxiv.org/abs/".data ++ coreForm b v) = _
    rw [parse_paper_id_body, h1, h2, h3core, hsv]
  | urlPdf =>
    have hlit : ∀ c ∈ "https://arxiv.org/pdf/".data, pySpace c = false := by
      decide
    have hlit2 : ∀ c ∈ ".pdf".data, pySpace c = false := by decide
    have h1 : pyStrip ("https://arxiv.org/pdf/".data ++
        (coreForm b v ++ ".pdf".data)) =
        "https://arxiv.org/pdf/".data ++ (coreForm b v ++ ".pdf".data) := by
      apply pyStrip_eq_self
      intro c hc
      rcases List.mem_append.mp hc with hm | hm
      · exact hlit c hm
      · rcases List.mem_append.mp hm with hm2 | hm2
        · exact hnospace c hm2
        · exact hlit2 c hm2
    have hlen : (coreForm b v ++ ".pdf".data).length =
        (coreForm b v).length + 4 := by simp
    have hlenpos : 1 ≤ (coreForm b v).length := by
      cases hcc : coreForm b v with
      | nil => exact absurd hcc hne
      | cons c t => simp
    have hendsT : endsWithCI ['.','p','d','f'] (coreForm b v ++ ".pdf".data)
        = true := by
      unfold endsWithCI
      rw [show (['.','p','d','f'] : Str).reverse = ['f','d','p','.'] from rfl,
        List.reverse_append,
        show (".pdf".data : Str).reverse = ['f','d','p','.'] from rfl]
      rw [show dropCI ['f','d','p','.'] (['f','d','p','.'] ++
        (coreForm b v).reverse) = some ((coreForm b v).reverse) from rfl]
      rfl
    have htake : (coreForm b v ++ ".pdf".data).take
        ((coreForm b v ++ ".pdf".data).length - 4) = coreForm b v := by
      rw [hlen, Nat.add_sub_cancel]
      exact List.take_left _ _
    have hu : urlExtract ("https://arxiv.org/pdf/".data ++
        (coreForm b v ++ ".pdf".data)) =
        if coreForm b v ++ ".pdf".data = [] then none
        else if 5 ≤ (coreForm b v ++ ".pdf".data).length &&
            endsWithCI ['.','p','d','f'] (coreForm b v ++ ".pdf".data) then
          some ((coreForm b v ++ ".pdf".data).take
            ((coreForm b v ++ ".pdf".data).length - 4))
        else some (coreForm b v ++ ".pdf".data) := rfl
    have hcondT : (decide (5 ≤ (coreForm b v ++ ".pdf".data).length) &&
        endsWithCI ['.','p','d','f'] (coreForm b v ++ ".pdf".data)) = true := by
      rw [hendsT]
      simp only [Bool.and_true, decide_eq_true_eq, List.length_append,
        List.length_cons, List.length_nil]
      omega
    have hurl : urlExtract ("https://arxiv.org/pdf/".data ++
        (coreForm b v ++ ".pdf".data)) = some (coreForm b v) := by
      rw [hu, if_neg (by simp), if_pos hcondT, htake]
    have h2 : stripUrl ("https://arxiv.org/pdf/".data ++
        (coreForm b v ++ ".pdf".data)) = coreForm b v := by
      unfold stripUrl
      rw [hurl]
    show parse_paper_id ("https://arxiv.org/pdf/".data ++
      (coreForm b v ++ ".pdf".data)) = _
    rw [parse_paper_id_body, h1, h2, h3core, hsv]

/-- Claim C3 (counterexample): `"catv12345"` is a legal base identifier
for the code's legacy grammar (`[a-z-]+` followed by digits), yet
`parse_paper_id ("catv12345" ++ "v2")` is `("catv12345", 2)` while
`normalize_paper_id "catv12345"` is `"cat"`, so the claimed identity
`parse(id + "v" + v) = (normalize(id), v)` fails, and the supported
versioned form `"catv12345v2"` also violates idempotence of the
normalizer. -/
theorem normalize_idempotent_cex :
    legalBaseId "catv12345".data = true ∧
    parse_paper_id ("catv12345".data ++ 'v' :: "2".data) ≠
      (normalize_paper_id "catv12345".data, some 2) ∧
    normalize_paper_id (normalize_paper_id
        (applyFraming .plain (coreForm "catv12345".data (some "2".data)))) ≠
      normalize_paper_id
        (applyFraming .plain (coreForm "catv12345".data (some "2".data))) := by
  decide

/-- Claim C3 (amended): for every supported input form built from a
legal base identifier that itself contains no `v<digits>` tail (neither
before nor after joining the legacy slash), the normalizer is
idempotent; and for every such legal base identifier `id` and non-empty
digit string `ds`, `parse_paper_id (id ++ "v" ++ ds)` is exactly
`(normalize_paper_id id, int(ds))`. -/
theorem normalize_idempotent_and_version_roundtrip :
    (∀ (f : Framing) (b : Str) (v : Option Str), legalBaseId b = true →
      (splitVersion b).2 = none →
      (splitVersion (joinSingleSlash b)).2 = none → vOk v →
      normalize_paper_id (normalize_paper_id (applyFraming f (coreForm b v))) =
        normalize_paper_id (applyFraming f (coreForm b v))) ∧
    (∀ (b ds : Str), legalBaseId b = true → (splitVersion b).2 = none →
      ds ≠ [] → ds.all pyDigit = true →
      parse_paper_id (b ++ 'v' :: ds) =
        (normalize_paper_id b, some (digitsToNat ds))) := by
  constructor
  · intro f b v hb hbs hbj hv
    have hx : normalize_paper_id (applyFraming f (coreForm b v)) =
        joinSingleSlash b := by
      unfold normalize_paper_id
      rw [parse_framed f hb hbs hv]
    rw [hx]
    have hchars : ∀ c ∈ joinSingleSlash b, goodChar c :=
      fun c hc => legal_chars_good hb c (joinSingleSlash_subset hc)
    have hnsp : ∀ c ∈ joinSingleSlash b, pySpace c = false :=
      fun c hc => goodChar_no_space (hchars c hc)
    have hnc : (':' : Char) ∉ joinSingleSlash b :=
      fun hc => goodChar_ne_colon (hchars _ hc) rfl
    have hfix := parse_fix_of_no_pattern (joinSingleSlash b)
      (pyStrip_eq_self hnsp)
      (urlExtract_none_of_no_colon hnc)
      (stripArxivPre_none_of_no_colon hnc)
      hbj
      (by rw [legal_join_count hb]; omega)
    unfold normalize_paper_id
    rw [hfix]
  · intro b ds hb hbs hds1 hds2
    have h1 := parse_framed .plain (v := some ds) hb hbs ⟨hds1, hds2⟩
    have h2 := parse_framed .plain (v := none) hb hbs trivial
    have h2n : normalize_paper_id b = joinSingleSlash b := by
      unfold normalize_paper_id
      rw [show parse_paper_id b =
        parse_paper_id (applyFraming .plain (coreForm b none)) from rfl, h2]
    rw [show (b ++ 'v' :: ds) =
      applyFraming .plain (coreForm b (some ds)) from rfl, h1, h2n]
    rfl

/-- Witness for the amended Claim C3 theorem: idempotence at the
URL-framed versioned form of `astro-ph/0412561`, and the version
round-trip at `1501.00963v3`. -/
theorem normalize_idempotent_and_version_roundtrip_witness :
    normalize_paper_id (normalize_paper_id (applyFraming .urlAbs
        (coreForm "astro-ph/0412561".data (some "1".data)))) =
      normalize_paper_id (applyFraming .urlAbs
        (coreForm "astro-ph/0412561".data (some "1".data))) ∧
    parse_paper_id ("1501.00963".data ++ 'v' :: "3".data) =
      (normalize_paper_id "1501.00963".data, some (digitsToNat "3".data)) :=
  ⟨normalize_idempotent_and_version_roundtrip.1 .urlAbs
      "astro-ph/0412561".data (some "1".data) (by decide) (by decide)
      (by decide) ⟨by decide, by decide⟩,
    normalize_idempotent_and_version_roundtrip.2 "1501.00963".data "3".data
      (by decide) (by decide) (by decide) (by decide)⟩

/-! USPTO patent identifier parser (patent_retriever.py). -/

/-- ASCII uppering of a character's code point (Python `str.upper` on
the ASCII range). -/
def upperNat (c : Char) : Nat :=
  if 97 ≤ c.toNat && c.toNat ≤ 122 then c.toNat - 32 else c.toNat

/-- `pid.upper().startswith("US")`. -/
def usPre (t : Str) : Bool :=
  match t with
  | c1 :: c2 :: _ => upperNat c1 = 85 && upperNat c2 = 83
  | _ => false

/-- ASCII uppercase letter, the regex class `[A-Z]`. -/
def isUpperA (c : Char) : Bool := 65 ≤ c.toNat && c.toNat ≤ 90

/-- The regex `re.search(r'([A-Z]\d?)$', pid)`: the only possible match
starts at the last or second-to-last character, so the search finds a
single trailing uppercase letter, or an uppercase letter followed by
one digit at the very end.  Returns `(bare, kind)`. -/
def kindSearch (s : Str) : Option (Str × Str) :=
  match s.reverse with
  | [] => none
  | c :: rest =>
    if isUpperA c then some (rest.reverse, [c])
    else if pyDigit c then
      match rest with
      | [] => none
      | k :: rest2 =>
        if isUpperA k then some (rest2.reverse, [k, c]) else none
    else none

/-- The regex `re.match(r'^(D|RE|PP)\d', bare)` (shared verbatim between
the code and the claim). -/
def dreppMatch : Str → Bool
  | 'D' :: c :: _ => pyDigit c
  | 'R' :: 'E' :: c :: _ => pyDigit c
  | 'P' :: 'P' :: c :: _ => pyDigit c
  | _ => false

/-- `parse_patent_id` (patent_retriever.py lines 15-49): trim, strip one
leading `US` case-insensitively, split a trailing kind code, and accept
the split only when the remainder is non-empty and is all digits or a
D/RE/PP-prefixed number. -/
def parse_patent_id (s : Str) : Str × Option Str :=
  let t := pyStrip s
  let pid := if usPre t then t.drop 2 else t
  match kindSearch pid with
  | some (bare, kind) =>
    if !bare.isEmpty && (bare.all pyDigit || dreppMatch bare) then
      (bare, some kind)
    else (pid, none)
  | none => (pid, none)

/-- The claim's description of the kind-code split, phrased directly on
the string's last one or two characters: greedily take an uppercase
letter followed by one digit at the end, else a single trailing
uppercase letter. -/
def specKindSplit (pid : Str) : Option (Str × Str) :=
  match pid.getLast? with
  | none => none
  | some c =>
    if pyDigit c then
      match pid.dropLast.getLast? with
      | some k =>
        if isUpperA k then some (pid.dropLast.dropLast, [k, c]) else none
      | none => none
    else if isUpperA c then some (pid.dropLast, [c])
    else none

/-- The claim's description of the whole parse: trim whitespace, strip
one leading `US` case-insensitively, and split off a trailing kind code
if and only if the part before the split is non-empty and either all
digits or D/RE/PP followed by a digit. -/
def specParsePatent (s : Str) : Str × Option Str :=
  let t := pyStrip s
  let pid := if usPre t then t.drop 2 else t
  match specKindSplit pid with
  | some (bare, kind) =>
    if bare ≠ [] ∧ (bare.all pyDigit = true ∨ dreppMatch bare = true) then
      (bare, some kind)
    else (pid, none)
  | none => (pid, none)

example : parse_patent_id "US11123456B2".data = ("11123456".data, some "B2".data) := by decide
example : parse_patent_id "US20200123456A1".data = ("20200123456".data, some "A1".data) := by decide
example : parse_patent_id "11123456".data = ("11123456".data, none) := by decide
example : parse_patent_id "D0987654S".data = ("D0987654".data, some "S".data) := by decide
example : parse_patent_id "RE12345E".data = ("RE12345".data, some "E".data) := by decide
example : parse_patent_id "USB2".data = ("B2".data, none) := by decide

theorem kindSearch_eq_spec (pid : Str) : kindSearch pid = specKindSplit pid := by
  cases hr : pid.reverse with
  | nil =>
    have hp : pid = [] := by simpa using congrArg List.reverse hr
    subst hp
    rfl
  | cons c rest =>
    have hp : pid = rest.reverse ++ [c] := by simpa using congrArg List.reverse hr
    subst hp
    have hrev : (rest.reverse ++ [c]).reverse = c :: rest := by simp
    by_cases hc1 : isUpperA c = true
    · have hc2 : pyDigit c = false := by
        simp only [isUpperA, Bool.and_eq_true, decide_eq_true_eq] at hc1
        simp only [pyDigit, Bool.and_eq_true, decide_eq_true_eq,
          Bool.eq_false_iff, ne_eq]
        omega
      simp [kindSearch, specKindSplit, hrev, List.getLast?_concat,
        List.dropLast_concat, hc1, hc2]
    · by_cases hc3 : pyDigit c = true
      · cases rest with
        | nil =>
          simp [kindSearch, specKindSplit, List.getLast?_concat,
            List.dropLast_concat, hc1, hc3]
        | cons k rest2 =>
          by_cases hk : isUpperA k = true <;>
            simp [kindSearch, specKindSplit, hc1, hc3, hk,
              List.getLast?_concat, List.dropLast_concat, List.reverse_cons]
      · have hc3f : pyDigit c = false := by simpa using hc3
        have hc1f : isUpperA c = false := by simpa using hc1
        simp [kindSearch, specKindSplit, hrev, List.getLast?_concat,
          List.dropLast_concat, hc1f, hc3f]

/-- Claim C7: `parse_patent_id` trims whitespace, strips one leading
`US` case-insensitively, and splits off a trailing kind code (one
uppercase letter optionally followed by one digit) if and only if the
part before the split is non-empty and is all digits or begins with
`D`/`RE`/`PP` followed by a digit (`specParsePatent` is this
description, written with the claim's words); and the three quoted
examples parse as stated. -/
theorem parse_patent_id_follows_spec :
    (∀ s, parse_patent_id s = specParsePatent s) ∧
    parse_patent_id "US11123456B2".data = ("11123456".data, some "B2".data) ∧
    parse_patent_id "D0987654S".data = ("D0987654".data, some "S".data) ∧
    parse_patent_id "RE12345E".data = ("RE12345".data, some "E".data) := by
  refine ⟨?_, by decide, by decide, by decide⟩
  intro s
  show (match kindSearch
      (if usPre (pyStrip s) then (pyStrip s).drop 2 else pyStrip s) with
    | some (bare, kind) =>
      if !bare.isEmpty && (bare.all pyDigit || dreppMatch bare) then
        (bare, some kind)
      else ((if usPre (pyStrip s) then (pyStrip s).drop 2 else pyStrip s), none)
    | none =>
      ((if usPre (pyStrip s) then (pyStrip s).drop 2 else pyStrip s), none)) =
    (match specKindSplit
      (if usPre (pyStrip s) then (pyStrip s).drop 2 else pyStrip s) with
    | some (bare, kind) =>
      if bare ≠ [] ∧ (bare.all pyDigit = true ∨ dreppMatch bare = true) then
        (bare, some kind)
      else ((if usPre (pyStrip s) then (pyStrip s).drop 2 else pyStrip s), none)
    | none =>
      ((if usPre (pyStrip s) then (pyStrip s).drop 2 else pyStrip s), none))
  generalize (if usPre (pyStrip s) then (pyStrip s).drop 2 else pyStrip s) = pid
  rw [kindSearch_eq_spec]
  rcases hks : specKindSplit pid with - | ⟨bare, kind⟩
  · rfl
  · have hbool : (!bare.isEmpty && (bare.all pyDigit || dreppMatch bare))
        = true ↔ (bare ≠ [] ∧ (bare.all pyDigit = true ∨ dreppMatch bare = true)) := by
      simp
    by_cases h : bare ≠ [] ∧ (bare.all pyDigit = true ∨ dreppMatch bare = true)
    · simp only [if_pos h, if_pos (hbool.mpr h)]
    · simp only [if_neg h, if_neg (fun hb => h (hbool.mp hb))]

/-! Tar-file location hint and bulk-filename year extraction. -/

/-- Decimal rendering of a natural number (Python `str(year)`). -/
def natToStr (n : Nat) : Str := (Nat.repr n).data

/-- The dictionary produced by `get_expected_tar_pattern`, with the
intermediate numeric `year` kept alongside its string form. -/
structure TarPattern where
  year : Nat
  year_dir : Str
  yymm : Str
  pdf_pattern : Str
  src_pattern : Str
  category : Option Str
deriving DecidableEq

/-- The regex `^(\d{2})(\d{2})\.(\d+)$`: returns the numeric `yy` and
the four-character `yymm` string. -/
def modernMatch (s : Str) : Option (Nat × Str) :=
  match s with
  | d1 :: d2 :: d3 :: d4 :: c :: rest =>
    if pyDigit d1 && pyDigit d2 && pyDigit d3 && pyDigit d4 && c = '.' &&
        !rest.isEmpty && rest.all pyDigit then
      some (digitsToNat [d1, d2], [d1, d2, d3, d4])
    else none
  | _ => none

/-- The regex `^([a-z-]+)(\d{2})(\d{2})(\d+)$` (IGNORECASE): returns
the category, the numeric `yy` and the `yymm` string. -/
def oldMatch (s : Str) : Option (Str × Nat × Str) :=
  let cat := s.takeWhile catChar
  match s.dropWhile catChar with
  | e1 :: e2 :: e3 :: e4 :: rest =>
    if !cat.isEmpty && pyDigit e1 && pyDigit e2 && pyDigit e3 && pyDigit e4 &&
        !rest.isEmpty && rest.all pyDigit then
      some (cat, digitsToNat [e1, e2], [e1, e2, e3, e4])
    else none
  | _ => none

/-- `get_expected_tar_pattern` (retriever.py lines 101-147). -/
def get_expected_tar_pattern (paper_id : Str) : Option TarPattern :=
  let base := (parse_paper_id paper_id).1
  match modernMatch base with
  | some (yy, yymm) =>
    let year := if yy < 90 then 2000 + yy else 1900 + yy
    some ⟨year, natToStr year, yymm,
      "arXiv_pdf_".data ++ yymm ++ "_*.tar".data,
      "arXiv_src_".data ++ yymm ++ "_*.tar".data, none⟩
  | none =>
    match oldMatch base with
    | some (cat, yy, yymm) =>
      let year := if yy < 90 then 2000 + yy else 1900 + yy
      some ⟨year, natToStr year, yymm,
        "arXiv_pdf_".data ++ cat ++ "_".data ++ yymm ++ "_*.tar".data,
        "arXiv_src_".data ++ cat ++ "_".data ++ yymm ++ "_*.tar".data,
        some cat⟩
    | none => none

/-- Case-sensitive literal prefix match, returning the remainder. -/
def matchLit : Str → Str → Option Str
  | [], s => some s
  | _ :: _, [] => none
  | p :: ps, c :: cs => if p = c then matchLit ps cs else none

/-- One attempted match of
`arXiv_(pdf|src)_(\d{2})(\d{2})_\d{3}\.tar` at the start of `s`,
returning the two year-digit characters. -/
def tarNameAt (s : Str) : Option (Char × Char) :=
  match matchLit ['a','r','X','i','v','_'] s with
  | none => none
  | some r1 =>
    match (match matchLit ['p','d','f','_'] r1 with
           | some r => some r
           | none => matchLit ['s','r','c','_'] r1) with
    | none => none
    | some r2 =>
      match r2 with
      | y1 :: y2 :: m1 :: m2 :: u :: k1 :: k2 :: k3 :: rest =>
        if pyDigit y1 && pyDigit y2 && pyDigit m1 && pyDigit m2 && u = '_' &&
            pyDigit k1 && pyDigit k2 && pyDigit k3 &&
            (matchLit ['.','t','a','r'] rest).isSome then
          some (y1, y2)
        else none
      | _ => none

/-- `re.search`: try the tar-name pattern at every position, leftmost
match first. -/
def findTarName : Str → Option (Char × Char)
  | [] => none
  | c :: rest =>
    match tarNameAt (c :: rest) with
    | some p => some p
    | none => findTarName rest

/-- `extract_year_from_filename` (index_arxiv_bulk_files.py lines
396-411); `none` models the `ValueError` raised when the pattern is
absent. -/
def extract_year_from_filename (filename : Str) : Option Nat :=
  match findTarName filename with
  | some (y1, y2) =>
    let yy := digitsToNat [y1, y2]
    some (if 91 ≤ yy then 1900 + yy else 2000 + yy)
  | none => none

example : extract_year_from_filename "arXiv_src_0412_001.tar".data = some 2004 := by decide
example : extract_year_from_filename "arXiv_pdf_9107_002.tar".data = some 1991 := by decide
example : extract_year_from_filename "2015/arXiv_src_1501_001.tar".data = some 2015 := by decide
example : (get_expected_tar_pattern "1501.00963".data).map TarPattern.year_dir = some "2015".data := by decide

theorem tarNameAt_digits {s : Str} {y1 y2 : Char}
    (h : tarNameAt s = some (y1, y2)) :
    pyDigit y1 = true ∧ pyDigit y2 = true := by
  unfold tarNameAt at h
  repeat' split at h
  all_goals simp_all

theorem findTarName_digits {s : Str} {y1 y2 : Char}
    (h : findTarName s = some (y1, y2)) :
    pyDigit y1 = true ∧ pyDigit y2 = true := by
  induction s with
  | nil => simp [findTarName] at h
  | cons c rest ih =>
    unfold findTarName at h
    rcases ht : tarNameAt (c :: rest) with - | p
    · rw [ht] at h
      exact ih h
    · rw [ht] at h
      simp only [Option.some.injEq] at h
      subst h
      exact tarNameAt_digits ht

theorem digits2_le_99 {y1 y2 : Char} (h1 : pyDigit y1 = true)
    (h2 : pyDigit y2 = true) : digitsToNat [y1, y2] ≤ 99 := by
  simp only [pyDigit, Bool.and_eq_true, decide_eq_true_eq] at h1 h2
  show (0 * 10 + (y1.toNat - '0'.toNat)) * 10 + (y2.toNat - '0'.toNat) ≤ 99
  have : '0'.toNat = 48 := by decide
  omega

/-- Claim C6 (counterexample): at the two-digit year `90` the two
functions disagree, and `get_expected_tar_pattern` contradicts the
claimed mapping: for `"9001.12345"` it infers year `1990` (its test is
`yy < 90`), while the claimed rule `1900+YY iff YY ≥ 91` gives `2090`
— as `extract_year_from_filename` indeed does for
`arXiv_src_9001_001.tar`. -/
theorem year_inference_cex :
    (get_expected_tar_pattern "9001.12345".data).map TarPattern.year =
      some 1990 ∧
    extract_year_from_filename "arXiv_src_9001_001.tar".data = some 2090 ∧
    (1990 : Nat) ≠ 2090 := by
  decide

/-- Claim C6 (amended): `extract_year_from_filename` maps a two-digit
year `YY` (always in `0..99`) to `1900+YY` exactly when `YY ≥ 91`,
while `get_expected_tar_pattern` maps it to `1900+YY` exactly when
`YY ≥ 90`; the quoted examples hold: `"1501.00963"` gives year
directory `"2015"` and `"astro-ph0412561"` gives year directory
`"2004"` with src pattern `"arXiv_src_astro-ph_0412_*.tar"`. -/
theorem year_inference_amended :
    (∀ (s : Str) (y1 y2 : Char), findTarName s = some (y1, y2) →
      digitsToNat [y1, y2] ≤ 99 ∧
      extract_year_from_filename s =
        some (if 91 ≤ digitsToNat [y1, y2] then 1900 + digitsToNat [y1, y2]
          else 2000 + digitsToNat [y1, y2])) ∧
    (∀ (b q : Str) (yy : Nat),
      modernMatch (normalize_paper_id b) = some (yy, q) →
      (get_expected_tar_pattern b).map TarPattern.year =
        some (if 90 ≤ yy then 1900 + yy else 2000 + yy)) ∧
    (∀ (b cat q : Str) (yy : Nat),
      modernMatch (normalize_paper_id b) = none →
      oldMatch (normalize_paper_id b) = some (cat, yy, q) →
      (get_expected_tar_pattern b).map TarPattern.year =
        some (if 90 ≤ yy then 1900 + yy else 2000 + yy)) ∧
    (get_expected_tar_pattern "1501.00963".data).map TarPattern.year_dir =
      some "2015".data ∧
    (get_expected_tar_pattern "astro-ph0412561".data).map
      TarPattern.year_dir = some "2004".data ∧
    (get_expected_tar_pattern "astro-ph0412561".data).map
      TarPattern.src_pattern = some "arXiv_src_astro-ph_0412_*.tar".data := by
  refine ⟨?_, ?_, ?_, by decide, by decide, by decide⟩
  · intro s y1 y2 h
    obtain ⟨hd1, hd2⟩ := findTarName_digits h
    refine ⟨digits2_le_99 hd1 hd2, ?_⟩
    unfold extract_year_from_filename
    rw [h]
  · intro b q yy h
    unfold get_expected_tar_pattern
    rw [show (parse_paper_id b).1 = normalize_paper_id b from rfl]
    simp only [h, Option.map_some]
    by_cases h90 : yy < 90
    · rw [if_pos h90, if_neg (by omega)]
      rfl
    · rw [if_neg h90, if_pos (by omega)]
      rfl
  · intro b cat q yy h1 h2
    unfold get_expected_tar_pattern
    rw [show (parse_paper_id b).1 = normalize_paper_id b from rfl]
    simp only [h1, h2, Option.map_some]
    by_cases h90 : yy < 90
    · rw [if_pos h90, if_neg (by omega)]
      rfl
    · rw [if_neg h90, if_pos (by omega)]
      rfl

/-- Witness for the amended Claim C6 theorem at concrete inputs for all
three quantified parts. -/
theorem year_inference_amended_witness :
    (digitsToNat ['1', '5'] ≤ 99 ∧
      extract_year_from_filename "arXiv_src_1501_001.tar".data =
        some (if 91 ≤ digitsToNat ['1', '5'] then 1900 + digitsToNat ['1', '5']
          else 2000 + digitsToNat ['1', '5'])) ∧
    (get_expected_tar_pattern "1501.00963".data).map TarPattern.year =
      some (if 90 ≤ 15 then 1900 + 15 else 2000 + 15) ∧
    (get_expected_tar_pattern "astro-ph0412561".data).map TarPattern.year =
      some (if 90 ≤ 4 then 1900 + 4 else 2000 + 4) :=
  ⟨year_inference_amended.1 "arXiv_src_1501_001.tar".data '1' '5' (by decide),
    year_inference_amended.2.1 "1501.00963".data "1501".data 15 (by decide),
    year_inference_amended.2.2.1 "astro-ph0412561".data "astro-ph".data
      "0412".data 4 (by decide) (by decide)⟩

/-! Disk LRU cache (cache.py), modelled on an ideal filesystem: writes
and deletes succeed, and file modification times are drawn from a
strictly increasing logical clock. -/

structure CEntry where
  name : Str
  content : List Nat
  mtime : Nat
deriving DecidableEq

structure CacheState where
  entries : List CEntry
  clock : Nat
deriving DecidableEq

/-- Order used by `_get_cache_entries`' sort key (mtime ascending). -/
def mtimeLE (a b : CEntry) : Prop := a.mtime ≤ b.mtime

instance : DecidableRel mtimeLE := fun a b => Nat.decLe a.mtime b.mtime

namespace PaperCache

/-- `_sanitize_paper_id` (cache.py lines 41-44): replace `/`, `\` and
`:` with `_`. -/
def sanitize_paper_id (paper_id : Str) : Str :=
  paper_id.map (fun c => if c = '/' || c = '\\' || c = ':' then '_' else c)

/-- `_get_cache_entries` (cache.py lines 119-139): the directory
listing sorted by mtime ascending (a stable sort, like Python's). -/
def get_cache_entries (s : CacheState) : List CEntry :=
  List.insertionSort mtimeLE s.entries

/-- Total size of a list of entries. -/
def totalSize (l : List CEntry) : Nat :=
  (l.map (fun e => e.content.length)).sum

/-- The eviction loop of `_evict_if_needed` (cache.py lines 159-169):
walk the mtime-sorted entries, unlinking until the running total fits. -/
def evictLoop : Nat → Nat → List CEntry → List CEntry
  | _, _, [] => []
  | current, target, e :: rest =>
    if current ≤ target then e :: rest
    else evictLoop (current - e.content.length) target rest

/-- `_evict_if_needed` (cache.py lines 145-169), as the surviving entry
list of the cache directory. -/
def evict_if_needed (maxB : Nat) (s : CacheState) (newSize : Nat) :
    List CEntry :=
  let entries := get_cache_entries s
  let current := totalSize entries
  let target := maxB - newSize
  if current ≤ target then s.entries else evictLoop current target entries

/-- `put` (cache.py lines 81-117): refuse blobs over the budget, else
evict as needed and write the blob (overwriting an entry of the same
sanitized name, with a fresh mtime). -/
def put (maxB : Nat) (s : CacheState) (paper_id : Str)
    (content : List Nat) : Bool × CacheState :=
  let name := sanitize_paper_id paper_id
  if content.length > maxB then (false, s)
  else
    let kept := evict_if_needed maxB s content.length
    let remaining := kept.filter (fun e => e.name ≠ name)
    (true, ⟨remaining ++ [⟨name, content, s.clock⟩], s.clock + 1⟩)

/-- `get` (cache.py lines 50-79): read the blob and touch the entry's
mtime. -/
def get (s : CacheState) (paper_id : Str) : Option (List Nat) × CacheState :=
  let name := sanitize_paper_id paper_id
  match s.entries.find? (fun e => e.name = name) with
  | some e =>
    (some e.content,
      ⟨s.entries.map (fun x =>
        if x.name = name then ⟨x.name, x.content, s.clock⟩ else x),
        s.clock + 1⟩)
  | none => (none, s)

end PaperCache

/-- A client operation against the cache. -/
inductive CacheOp
  | putOp (id : Str) (content : List Nat)
  | getOp (id : Str)

/-- One operation's effect on the cache state. -/
def cacheStep (maxB : Nat) (s : CacheState) : CacheOp → CacheState
  | .putOp id content => (PaperCache.put maxB s id content).2
  | .getOp id => (PaperCache.get s id).2

/-- Run a sequence of operations from the empty cache. -/
def runCache (maxB : Nat) (ops : List CacheOp) : CacheState :=
  ops.foldl (cacheStep maxB) ⟨[], 0⟩

/-! Cache correctness lemmas. -/

theorem totalSize_filter_le (p : CEntry → Bool) (l : List CEntry) :
    PaperCache.totalSize (l.filter p) ≤ PaperCache.totalSize l := by
  induction l with
  | nil => simp [PaperCache.totalSize]
  | cons e rest ih =>
    simp only [PaperCache.totalSize] at ih ⊢
    rw [List.filter_cons]
    by_cases hp : p e = true
    · rw [if_pos hp]
      simp only [List.map_cons, List.sum_cons]
      omega
    · rw [if_neg hp]
      simp only [List.map_cons, List.sum_cons]
      omega

theorem totalSize_append (l : List CEntry) (e : CEntry) :
    PaperCache.totalSize (l ++ [e]) =
      PaperCache.totalSize l + e.content.length := by
  simp [PaperCache.totalSize]

theorem totalSize_sort (s : CacheState) :
    PaperCache.totalSize (PaperCache.get_cache_entries s) =
      PaperCache.totalSize s.entries := by
  exact ((List.perm_insertionSort mtimeLE s.entries).map
    (fun e => e.content.length)).sum_eq

theorem evictLoop_total (target : Nat) :
    ∀ (l : List CEntry) (current : Nat), current = PaperCache.totalSize l →
    PaperCache.totalSize (PaperCache.evictLoop current target l) ≤ target := by
  intro l
  induction l with
  | nil =>
    intro current h
    simp [PaperCache.evictLoop, PaperCache.totalSize]
  | cons e rest ih =>
    intro current h
    by_cases hc : current ≤ target
    · rw [PaperCache.evictLoop, if_pos hc, ← h]
      exact hc
    · rw [PaperCache.evictLoop, if_neg hc]
      apply ih
      have : current = e.content.length + PaperCache.totalSize rest := by
        rw [h]; simp [PaperCache.totalSize]
      omega

theorem evict_if_needed_total {maxB : Nat} (s : CacheState) (newSize : Nat) :
    PaperCache.totalSize (PaperCache.evict_if_needed maxB s newSize) ≤
      maxB - newSize ∨
    (PaperCache.evict_if_needed maxB s newSize = s.entries ∧
      PaperCache.totalSize s.entries ≤ maxB - newSize) := by
  unfold PaperCache.evict_if_needed
  by_cases hc : PaperCache.totalSize (PaperCache.get_cache_entries s) ≤
      maxB - newSize
  · right
    rw [if_pos hc]
    exact ⟨rfl, by rw [← totalSize_sort s]; exact hc⟩
  · left
    rw [if_neg hc]
    exact evictLoop_total _ _ _ rfl

theorem put_state {maxB : Nat} {s : CacheState} {id : Str}
    {content : List Nat} (h : ¬content.length > maxB) :
    PaperCache.put maxB s id content =
      (true,
        ⟨(PaperCache.evict_if_needed maxB s content.length).filter
            (fun e => e.name ≠ PaperCache.sanitize_paper_id id) ++
          [⟨PaperCache.sanitize_paper_id id, content, s.clock⟩],
          s.clock + 1⟩) := by
  unfold PaperCache.put
  rw [if_neg h]

theorem put_totalSize {maxB : Nat} (s : CacheState) (id : Str)
    (content : List Nat) (hs : PaperCache.totalSize s.entries ≤ maxB) :
    PaperCache.totalSize (PaperCache.put maxB s id content).2.entries ≤
      maxB := by
  by_cases hbig : content.length > maxB
  · unfold PaperCache.put
    rw [if_pos hbig]
    exact hs
  · rw [put_state hbig]
    show PaperCache.totalSize (_ ++ [_]) ≤ maxB
    rw [totalSize_append]
    show PaperCache.totalSize _ + content.length ≤ maxB
    rcases @evict_if_needed_total maxB s content.length with h | ⟨he, h2⟩
    · have hf := totalSize_filter_le
        (fun e => e.name ≠ PaperCache.sanitize_paper_id id)
        (PaperCache.evict_if_needed maxB s content.length)
      omega
    · rw [he]
      have hf := totalSize_filter_le
        (fun e => e.name ≠ PaperCache.sanitize_paper_id id) s.entries
      omega

theorem get_state_none {s : CacheState} {id : Str}
    (h : s.entries.find? (fun e => e.name = PaperCache.sanitize_paper_id id)
      = none) : PaperCache.get s id = (none, s) := by
  show (match s.entries.find?
      (fun e => e.name = PaperCache.sanitize_paper_id id) with
    | some e =>
      (some e.content,
        (⟨s.entries.map (fun (x : CEntry) =>
          if x.name = PaperCache.sanitize_paper_id id then
            ⟨x.name, x.content, s.clock⟩ else x), s.clock + 1⟩ : CacheState))
    | none => (none, s)) = (none, s)
  rw [h]

theorem get_state_some {s : CacheState} {id : Str} {e : CEntry}
    (h : s.entries.find? (fun e => e.name = PaperCache.sanitize_paper_id id)
      = some e) :
    PaperCache.get s id =
      (some e.content,
        ⟨s.entries.map (fun x =>
          if x.name = PaperCache.sanitize_paper_id id then
            ⟨x.name, x.content, s.clock⟩ else x), s.clock + 1⟩) := by
  show (match s.entries.find?
      (fun (x : CEntry) => x.name = PaperCache.sanitize_paper_id id) with
    | some e =>
      (some e.content,
        (⟨s.entries.map (fun (x : CEntry) =>
          if x.name = PaperCache.sanitize_paper_id id then
            ⟨x.name, x.content, s.clock⟩ else x), s.clock + 1⟩ : CacheState))
    | none => (none, s)) = _
  rw [h]

theorem get_totalSize (s : CacheState) (id : Str) :
    PaperCache.totalSize (PaperCache.get s id).2.entries =
      PaperCache.totalSize s.entries := by
  cases hf : s.entries.find?
      (fun e => e.name = PaperCache.sanitize_paper_id id) with
  | none => rw [get_state_none hf]
  | some e =>
    rw [get_state_some hf]
    show PaperCache.totalSize (s.entries.map _) = _
    simp only [PaperCache.totalSize, List.map_map]
    congr 1
    apply List.map_congr_left
    intro x hx
    by_cases hn : x.name = PaperCache.sanitize_paper_id id <;>
      simp [Function.comp, hn]

theorem runCache_totalSize (maxB : Nat) (ops : List CacheOp) :
    PaperCache.totalSize (runCache maxB ops).entries ≤ maxB := by
  suffices h : ∀ (s : CacheState), PaperCache.totalSize s.entries ≤ maxB →
      PaperCache.totalSize (ops.foldl (cacheStep maxB) s).entries ≤ maxB by
    exact h ⟨[], 0⟩ (by simp [PaperCache.totalSize])
  induction ops with
  | nil => intro s hs; exact hs
  | cons op rest ih =>
    intro s hs
    apply ih
    cases op with
    | putOp id content => exact put_totalSize s id content hs
    | getOp id => rw [cacheStep, get_totalSize]; exact hs

theorem evictLoop_suffix (target : Nat) :
    ∀ (l : List CEntry) (current : Nat),
    ∃ pre, pre ++ PaperCache.evictLoop current target l = l := by
  intro l
  induction l with
  | nil => exact fun current => ⟨[], rfl⟩
  | cons e rest ih =>
    intro current
    by_cases hc : current ≤ target
    · exact ⟨[], by rw [PaperCache.evictLoop, if_pos hc]; rfl⟩
    · obtain ⟨pre, hpre⟩ := ih (current - e.content.length)
      exact ⟨e :: pre, by rw [PaperCache.evictLoop, if_neg hc]; simp [hpre]⟩

theorem sorted_cache_entries (s : CacheState) :
    List.Sorted mtimeLE (PaperCache.get_cache_entries s) := by
  haveI h1 : IsTotal CEntry mtimeLE := ⟨fun a b => Nat.le_total a.mtime b.mtime⟩
  haveI h2 : IsTrans CEntry mtimeLE := ⟨fun a b c => Nat.le_trans⟩
  exact List.sorted_insertionSort mtimeLE s.entries

/-- Claim C4: on an ideal filesystem, (1) after any sequence of puts and
gets the total cached size never exceeds the budget; (2) `put` returns
`False` and leaves the state unchanged exactly when the blob is
strictly larger than the budget; (3) the entries removed by the
eviction pass form a prefix of the mtime-sorted directory listing, so
no entry is evicted while a strictly older-mtime entry is retained. -/
theorem cache_lru_invariant (maxB : Nat) :
    (∀ ops : List CacheOp,
      PaperCache.totalSize (runCache maxB ops).entries ≤ maxB) ∧
    (∀ (s : CacheState) (id : Str) (content : List Nat),
      ((PaperCache.put maxB s id content).1 = false ↔
        maxB < content.length) ∧
      ((PaperCache.put maxB s id content).1 = false →
        (PaperCache.put maxB s id content).2 = s)) ∧
    (∀ (s : CacheState) (newSize : Nat), ∃ removed,
      removed ++ PaperCache.evictLoop
          (PaperCache.totalSize (PaperCache.get_cache_entries s))
          (maxB - newSize) (PaperCache.get_cache_entries s) =
        PaperCache.get_cache_entries s ∧
      ∀ e ∈ removed,
        ∀ e2 ∈ PaperCache.evictLoop
          (PaperCache.totalSize (PaperCache.get_cache_entries s))
          (maxB - newSize) (PaperCache.get_cache_entries s),
        ¬ e2.mtime < e.mtime) := by
  refine ⟨runCache_totalSize maxB, ?_, ?_⟩
  · intro s id content
    constructor
    · by_cases hbig : content.length > maxB
      · constructor
        · intro _
          omega
        · intro _
          unfold PaperCache.put
          rw [if_pos hbig]
      · rw [put_state hbig]
        constructor
        · intro h
          simp at h
        · omega
    · intro hfalse
      by_cases hbig : content.length > maxB
      · unfold PaperCache.put
        rw [if_pos hbig]
      · rw [put_state hbig] at hfalse
        simp at hfalse
  · intro s newSize
    obtain ⟨pre, hpre⟩ := evictLoop_suffix (maxB - newSize)
      (PaperCache.get_cache_entries s)
      (PaperCache.totalSize (PaperCache.get_cache_entries s))
    refine ⟨pre, hpre, ?_⟩
    intro e he e2 he2
    have hsorted := sorted_cache_entries s
    rw [← hpre] at hsorted
    have := (List.pairwise_append.mp hsorted).2.2 e he e2 he2
    exact fun hlt => absurd this (by simp [mtimeLE]; omega)

/-- Witness for Claim C4 at concrete inputs: the budget-100 scenario
with three 40-byte blobs, a refused oversized blob, and an eviction
pass at a concrete state. -/
theorem cache_lru_invariant_witness :
    PaperCache.totalSize (runCache 100
      [.putOp "A".data (List.replicate 40 0),
       .putOp "B".data (List.replicate 40 0),
       .putOp "C".data (List.replicate 40 0)]).entries ≤ 100 ∧
    ((PaperCache.put 100 ⟨[], 0⟩ "X".data (List.replicate 101 0)).1 = false ↔
      100 < (List.replicate 101 (0 : Nat)).length) ∧
    (PaperCache.put 100 ⟨[], 0⟩ "X".data (List.replicate 101 0)).2 = ⟨[], 0⟩ :=
  ⟨(cache_lru_invariant 100).1 _,
    ((cache_lru_invariant 100).2.1 ⟨[], 0⟩ "X".data (List.replicate 101 0)).1,
    ((cache_lru_invariant 100).2.1 ⟨[], 0⟩ "X".data
      (List.replicate 101 0)).2 (by decide)⟩

theorem find?_filtered_append (name : Str) (kept : List CEntry)
    (content : List Nat) (clock : Nat) :
    ((kept.filter (fun (e : CEntry) => e.name ≠ name)) ++
        [(⟨name, content, clock⟩ : CEntry)]).find?
      (fun (e : CEntry) => e.name = name) =
      some (⟨name, content, clock⟩ : CEntry) := by
  rw [List.find?_append]
  have hnone : (kept.filter (fun (e : CEntry) => e.name ≠ name)).find?
      (fun (e : CEntry) => e.name = name) = none := by
    rw [List.find?_eq_none]
    intro e he
    have := (List.mem_filter.mp he).2
    simp at this ⊢
    exact this
  rw [hnone]
  simp [List.find?]

theorem put_state_snd {maxB : Nat} {s : CacheState} {id : Str}
    {content : List Nat} (h : ¬content.length > maxB) :
    (PaperCache.put maxB s id content).2 =
      ⟨(PaperCache.evict_if_needed maxB s content.length).filter
          (fun e => e.name ≠ PaperCache.sanitize_paper_id id) ++
        [⟨PaperCache.sanitize_paper_id id, content, s.clock⟩],
        s.clock + 1⟩ := by
  rw [put_state h]

theorem get_congr {s : CacheState} {id1 id2 : Str}
    (hs : PaperCache.sanitize_paper_id id1 = PaperCache.sanitize_paper_id id2) :
    PaperCache.get s id1 = PaperCache.get s id2 := by
  simp only [PaperCache.get, hs]

theorem get_after_put {maxB : Nat} (s : CacheState) (id1 id2 : Str)
    (content : List Nat)
    (hs : PaperCache.sanitize_paper_id id1 = PaperCache.sanitize_paper_id id2)
    (hlen : content.length ≤ maxB) :
    (PaperCache.get ((PaperCache.put maxB s id1 content).2) id2).1 =
      some content := by
  rw [put_state_snd (by omega), ← get_congr hs]
  have hfind := find?_filtered_append (PaperCache.sanitize_paper_id id1)
    (PaperCache.evict_if_needed maxB s content.length) content s.clock
  rw [get_state_some hfind]

/-- Claim C10: the cache identifies keys up to filename sanitization —
if two paper IDs sanitize to the same name, a `put` under one is
returned by a `get` under the other (so distinct canonical IDs can
overwrite each other's cached blobs); in particular
`"astro-ph/0412561"` and `"astro-ph_0412561"` collide. -/
theorem cache_sanitization_aliasing :
    (∀ (maxB : Nat) (s : CacheState) (id1 id2 : Str) (content : List Nat),
      PaperCache.sanitize_paper_id id1 = PaperCache.sanitize_paper_id id2 →
      content.length ≤ maxB →
      (PaperCache.get ((PaperCache.put maxB s id1 content).2) id2).1 =
        some content) ∧
    PaperCache.sanitize_paper_id "astro-ph/0412561".data =
      PaperCache.sanitize_paper_id "astro-ph_0412561".data ∧
    (∀ (maxB : Nat) (s : CacheState) (id1 id2 : Str) (c1 c2 : List Nat),
      PaperCache.sanitize_paper_id id1 = PaperCache.sanitize_paper_id id2 →
      c1.length ≤ maxB → c2.length ≤ maxB →
      (PaperCache.get ((PaperCache.put maxB
          ((PaperCache.put maxB s id1 c1).2) id2 c2).2) id1).1 = some c2) := by
  refine ⟨fun maxB s id1 id2 content hs hlen =>
      get_after_put s id1 id2 content hs hlen, by decide, ?_⟩
  intro maxB s id1 id2 c1 c2 hs h1 h2
  exact get_after_put _ id2 id1 c2 hs.symm h2

/-- Witness for Claim C10: a put under `"astro-ph/0412561"` is returned
by a get under `"astro-ph_0412561"`, and a second put under the alias
overwrites the blob. -/
theorem cache_sanitization_aliasing_witness :
    (PaperCache.get ((PaperCache.put 10 ⟨[], 0⟩ "astro-ph/0412561".data
        [1, 2]).2) "astro-ph_0412561".data).1 = some [1, 2] ∧
    (PaperCache.get ((PaperCache.put 10
        ((PaperCache.put 10 ⟨[], 0⟩ "astro-ph/0412561".data [1, 2]).2)
        "astro-ph_0412561".data [3]).2) "astro-ph/0412561".data).1 =
      some [3] :=
  ⟨cache_sanitization_aliasing.1 10 ⟨[], 0⟩ "astro-ph/0412561".data
      "astro-ph_0412561".data [1, 2] (by decide) (by decide),
    cache_sanitization_aliasing.2.2 10 ⟨[], 0⟩ "astro-ph/0412561".data
      "astro-ph_0412561".data [1, 2] [3] (by decide) (by decide) (by decide)⟩

/-! USPTO zip scanner: splitting concatenated XML on `<?xml` markers
(index_uspto_bulk_files.py). -/

/-- The byte string `b"<?xml"`. -/
def xmlMarker : List Nat := [60, 63, 120, 109, 108]

/-- Marker occurrence test at byte position `p`. -/
def isMarkerAt (content : List Nat) (p : Nat) : Bool :=
  List.isPrefixOf xmlMarker (content.drop p)

/-- Positions at or after `start` where the marker occurs, ascending. -/
def occFrom (content : List Nat) (start : Nat) : List Nat :=
  (List.range content.length).filter
    (fun p => start ≤ p && isMarkerAt content p)

/-- `content.find(b"<?xml", start)`: the least occurrence at or after
`start`. -/
def findMarkerFrom (content : List Nat) (start : Nat) : Option Nat :=
  (occFrom content start).head?

/-- The `while True` scan of `_split_xml_on_declarations` (lines
175-180): repeatedly find the marker and restart the search just past
it; the fuel bounds the iteration count. -/
def boundariesAux (content : List Nat) : Nat → Nat → List Nat
  | 0, _ => []
  | fuel + 1, start =>
    match findMarkerFrom content start with
    | none => []
    | some p => p :: boundariesAux content fuel (p + 5)

/-- The boundary list collected by `_split_xml_on_declarations`. -/
def boundaries (content : List Nat) : List Nat :=
  boundariesAux content (content.length + 1) 0

/-- The offset/size pairing of `_split_xml_on_declarations` (lines
185-193): each boundary with the distance to the next, the last one
running to the end. -/
def sizesOf : List Nat → Nat → List (Nat × Nat)
  | [], _ => []
  | [b], total => [(b, total - b)]
  | b1 :: b2 :: rest, total => (b1, b2 - b1) :: sizesOf (b2 :: rest) total

/-- `_split_xml_on_declarations` (index_uspto_bulk_files.py lines
164-193). -/
def split_xml_on_declarations (content : List Nat) : List (Nat × Nat) :=
  let bs := boundaries content
  if bs.isEmpty then [] else sizesOf bs content.length

example : split_xml_on_declarations
    ([60, 63, 120, 109, 108, 1, 2] ++ [60, 63, 120, 109, 108, 9]) =
    [(0, 7), (7, 6)] := by decide
example : split_xml_on_declarations [1, 2, 3] = [] := by decide
example : split_xml_on_declarations
    ([9, 9] ++ [60, 63, 120, 109, 108, 1]) = [(2, 6)] := by decide

theorem marker_no_overlap {content : List Nat} {p q : Nat}
    (hp : isMarkerAt content p = true) (hq : isMarkerAt content q = true)
    (h1 : p < q) (h2 : q < p + 5) : False := by
  rw [isMarkerAt, List.isPrefixOf_iff_prefix] at hp hq
  have hxl : xmlMarker.length = 5 := rfl
  have hlp : 5 ≤ (content.drop p).length := by
    rw [← hxl]
    exact hp.length_le
  have hplen : p + 5 ≤ content.length := by
    rw [List.length_drop] at hlp
    omega
  have hq0 : (0 : Nat) < xmlMarker.length := by rw [hxl]; omega
  have h0 := (hq.getElem hq0).symm
  rw [List.getElem_drop] at h0
  have hkl : q - p < xmlMarker.length := by rw [hxl]; omega
  have hk := (hp.getElem hkl).symm
  rw [List.getElem_drop] at hk
  have hpq : p + (q - p) = q := by omega
  simp only [hpq] at hk
  simp only [Nat.add_zero] at h0
  rw [h0] at hk
  have hk1 : 1 ≤ q - p := by omega
  have hk4 : q - p ≤ 4 := by omega
  interval_cases hqq : (q - p) <;> simp [xmlMarker] at hk

theorem filter_split {P Q : Nat → Bool} {p : Nat} :
    ∀ {l : List Nat}, l.Pairwise (· < ·) → p ∈ l → P p = true →
    (∀ q ∈ l, q < p → P q = false) →
    (∀ q ∈ l, q ≤ p → Q q = false) →
    (∀ q ∈ l, p < q → P q = Q q) →
    l.filter P = p :: l.filter Q := by
  intro l
  induction l with
  | nil =>
    intro _ hm
    simp at hm
  | cons x xs ih =>
    intro hpair hm hP hbef hQ hiff
    rcases List.mem_cons.mp hm with rfl | hm2
    · rw [List.filter_cons_of_pos hP,
        List.filter_cons_of_neg (by simp [hQ p (by simp) (le_refl p)])]
      congr 1
      apply List.filter_congr
      intro q hq
      exact hiff q (by simp [hq]) ((List.pairwise_cons.mp hpair).1 q hq)
    · have hxp : x < p := (List.pairwise_cons.mp hpair).1 p hm2
      rw [List.filter_cons_of_neg (by simp [hbef x (by simp) hxp]),
        List.filter_cons_of_neg (by simp [hQ x (by simp) (by omega)])]
      exact ih (List.pairwise_cons.mp hpair).2 hm2 hP
        (fun q hq => hbef q (by simp [hq]))
        (fun q hq => hQ q (by simp [hq]))
        (fun q hq => hiff q (by simp [hq]))

theorem occFrom_cons {content : List Nat} {start p : Nat}
    (h : findMarkerFrom content start = some p) :
    occFrom content start = p :: occFrom content (p + 5) ∧
      start ≤ p ∧ p < content.length := by
  unfold findMarkerFrom at h
  obtain ⟨t, ht⟩ : ∃ t, occFrom content start = p :: t := by
    cases hc : occFrom content start with
    | nil => rw [hc] at h; simp at h
    | cons a t =>
      rw [hc] at h
      simp only [List.head?_cons, Option.some.injEq] at h
      exact ⟨t, by rw [h]⟩
  have hpmem : p ∈ occFrom content start := by rw [ht]; simp
  have hgen := List.mem_filter.mp hpmem
  have hrange : p < content.length := List.mem_range.mp hgen.1
  have hpred := hgen.2
  simp only [Bool.and_eq_true, decide_eq_true_eq] at hpred
  obtain ⟨hsp, hmark⟩ := hpred
  have hsortedF : (occFrom content start).Pairwise (· < ·) :=
    (List.pairwise_lt_range _).filter _
  have hbef : ∀ q ∈ List.range content.length, q < p →
      (start ≤ q && isMarkerAt content q) = false := by
    intro q hq hlt
    by_contra hPq
    have hPq2 : (start ≤ q && isMarkerAt content q) = true := by
      simpa using hPq
    have hqm : q ∈ occFrom content start :=
      List.mem_filter.mpr ⟨hq, hPq2⟩
    rw [ht] at hqm
    rcases List.mem_cons.mp hqm with rfl | hmem2
    · omega
    · have hlt2 := (List.pairwise_cons.mp (ht ▸ hsortedF)).1 q hmem2
      omega
  refine ⟨filter_split (List.pairwise_lt_range _) (List.mem_range.mpr hrange)
    (by simp [hsp, hmark]) hbef ?_ ?_, hsp, hrange⟩
  · intro q _ hle
    have : ¬(p + 5 ≤ q) := by omega
    simp [this]
  · intro q _ hlt
    by_cases hm : isMarkerAt content q = true
    · have hge : p + 5 ≤ q := by
        by_contra hlt5
        exact marker_no_overlap hmark hm hlt (by omega)
      simp [hm, hge, show start ≤ q by omega]
    · simp [hm]

theorem boundariesAux_eq (content : List Nat) :
    ∀ fuel start, content.length + 1 - start ≤ fuel →
    boundariesAux content fuel start = occFrom content start := by
  intro fuel
  induction fuel with
  | zero =>
    intro start h
    have : occFrom content start = [] := by
      rw [occFrom, List.filter_eq_nil_iff]
      intro q hq
      have := List.mem_range.mp hq
      simp only [Bool.and_eq_true, decide_eq_true_eq, not_and]
      intro hsq
      omega
    rw [this]
    rfl
  | succ fuel ih =>
    intro start h
    rw [boundariesAux]
    cases hf : findMarkerFrom content start with
    | none =>
      unfold findMarkerFrom at hf
      rw [List.head?_eq_none_iff] at hf
      rw [hf]
    | some p =>
      obtain ⟨hocc, hsp, hrange⟩ := occFrom_cons hf
      rw [hocc]
      show p :: boundariesAux content fuel (p + 5) =
        p :: occFrom content (p + 5)
      rw [ih (p + 5) (by omega)]

theorem boundaries_eq_occ (content : List Nat) :
    boundaries content =
      (List.range content.length).filter (isMarkerAt content) := by
  rw [boundaries, boundariesAux_eq content (content.length + 1) 0 (by omega)]
  apply List.filter_congr
  intro q _
  simp

theorem sizesOf_map_fst : ∀ (bs : List Nat) (total : Nat),
    (sizesOf bs total).map Prod.fst = bs := by
  intro bs
  induction bs with
  | nil => intro total; rfl
  | cons x xs ih =>
    intro total
    cases xs with
    | nil => rfl
    | cons y rest =>
      show (x, y - x).fst :: (sizesOf (y :: rest) total).map Prod.fst =
        x :: y :: rest
      rw [ih total]

/-- Adjacent blocks are contiguous: each offset is the previous offset
plus the previous size. -/
def chainOk : List (Nat × Nat) → Bool
  | (o1, s1) :: (o2, s2) :: rest => o2 = o1 + s1 && chainOk ((o2, s2) :: rest)
  | _ => true

theorem sizesOf_chain : ∀ (bs : List Nat) (total : Nat),
    bs.Pairwise (· < ·) → chainOk (sizesOf bs total) = true := by
  intro bs
  induction bs with
  | nil => intro total _; rfl
  | cons x xs ih =>
    intro total hpair
    cases xs with
    | nil => rfl
    | cons y rest =>
      have hxy : x < y := (List.pairwise_cons.mp hpair).1 y (by simp)
      have htail := ih total (List.pairwise_cons.mp hpair).2
      cases rest with
      | nil =>
        show (decide (y = x + (y - x)) && chainOk [(y, total - y)]) = true
        simp [chainOk]
        omega
      | cons z rest2 =>
        show (decide (y = x + (y - x)) &&
          chainOk ((y, z - y) :: sizesOf (z :: rest2) total)) = true
        have : chainOk ((y, z - y) :: sizesOf (z :: rest2) total) = true :=
          htail
        rw [this]
        simp
        omega

theorem getLast?_cons_of_ne {α : Type} (x : α) (l : List α) (h : l ≠ []) :
    (x :: l).getLast? = l.getLast? := by
  cases l with
  | nil => exact absurd rfl h
  | cons y t => exact List.getLast?_cons_cons

theorem sizesOf_last : ∀ (bs : List Nat) (total : Nat), bs ≠ [] →
    (∀ b ∈ bs, b ≤ total) →
    ∃ bl, (sizesOf bs total).getLast? = some bl ∧ bl.1 + bl.2 = total := by
  intro bs
  induction bs with
  | nil => intro total h; exact absurd rfl h
  | cons x xs ih =>
    intro total _ hle
    cases xs with
    | nil =>
      refine ⟨(x, total - x), rfl, ?_⟩
      have := hle x (by simp)
      simp
      omega
    | cons y rest =>
      obtain ⟨bl, hbl, hbl2⟩ := ih total (by simp)
        (fun b hb => hle b (by simp [hb]))
      refine ⟨bl, ?_, hbl2⟩
      show ((x, y - x) :: sizesOf (y :: rest) total).getLast? = some bl
      rw [getLast?_cons_of_ne _ _ (by cases rest <;> simp [sizesOf])]
      exact hbl

/-! The per-block extraction and skip counting of
`process_zip_file_worker` (index_uspto_bulk_files.py lines 237-257).
The three `<publication-reference>` regex searches and the two
root-element searches are abstracted as an environment; the byte-window
limits (2000 for the document type, 4096 for the reference block) are
kept explicit. -/

structure ExtractEnv where
  pubRefDocNumber : List Nat → Option (List Nat)
  pubRefKind : List Nat → Option (List Nat)
  pubRefDate : List Nat → Option (List Nat)
  grantTag : List Nat → Bool
  appTag : List Nat → Bool

structure PatentInfo where
  docNumber : List Nat
  kindCode : Option (List Nat)
  docType : String
  year : Option Nat
deriving DecidableEq

/-- Numeric value of a run of ASCII digit bytes. -/
def bytesToNat (bs : List Nat) : Nat :=
  bs.foldl (fun a b => a * 10 + (b - 48)) 0

/-- `_extract_patent_info` (index_uspto_bulk_files.py lines 68-105). -/
def extract_patent_info (E : ExtractEnv) (xml_block : List Nat) :
    Option PatentInfo :=
  let header := xml_block.take 2000
  let docType : String :=
    if E.grantTag header then "grant"
    else if E.appTag header then "application"
    else "unknown"
  match E.pubRefDocNumber (xml_block.take 4096) with
  | none => none
  | some dn =>
    let kind := E.pubRefKind (xml_block.take 4096)
    let year : Option Nat :=
      match E.pubRefDate (xml_block.take 4096) with
      | some d => if 4 ≤ d.length then some (bytesToNat (d.take 4)) else none
      | none => none
    some ⟨dn, kind, docType, year⟩

/-- The entry-collection loop of `process_zip_file_worker` (lines
240-257): one pass over the blocks, appending an entry per extractable
block and counting the rest as skipped. -/
def processBlocks (E : ExtractEnv) (content : List Nat) :
    List (Nat × Nat × PatentInfo) × Nat :=
  (split_xml_on_declarations content).foldl
    (fun acc b =>
      let block := (content.drop b.1).take b.2
      match extract_patent_info E block with
      | none => (acc.1, acc.2 + 1)
      | some info => (acc.1 ++ [(b.1, b.2, info)], acc.2))
    ([], 0)

theorem foldl_blocks (E : ExtractEnv) (content : List Nat) :
    ∀ (bs : List (Nat × Nat)) (acc : List (Nat × Nat × PatentInfo)) (k : Nat),
    bs.foldl (fun acc b =>
      let block := (content.drop b.1).take b.2
      match extract_patent_info E block with
      | none => (acc.1, acc.2 + 1)
      | some info => (acc.1 ++ [(b.1, b.2, info)], acc.2)) (acc, k) =
    (acc ++ bs.filterMap (fun b =>
        (extract_patent_info E ((content.drop b.1).take b.2)).map
          (fun i => (b.1, b.2, i))),
      k + (bs.filter (fun b =>
        (extract_patent_info E ((content.drop b.1).take b.2)).isNone)).length)
    := by
  intro bs
  induction bs with
  | nil => intro acc k; simp
  | cons b rest ih =>
    intro acc k
    rw [List.foldl_cons]
    cases he : extract_patent_info E ((content.drop b.1).take b.2) with
    | none =>
      simp only [he]
      rw [ih acc (k + 1), List.filterMap_cons, List.filter_cons]
      simp [he]
      omega
    | some info =>
      simp only [he]
      rw [ih (acc ++ [(b.1, b.2, info)]) k, List.filterMap_cons,
        List.filter_cons]
      simp [he]

theorem processBlocks_spec (E : ExtractEnv) (content : List Nat) :
    processBlocks E content =
      ((split_xml_on_declarations content).filterMap (fun b =>
        (extract_patent_info E ((content.drop b.1).take b.2)).map
          (fun i => (b.1, b.2, i))),
       ((split_xml_on_declarations content).filter (fun b =>
        (extract_patent_info E ((content.drop b.1).take b.2)).isNone)).length)
    := by
  rw [processBlocks, foldl_blocks E content (split_xml_on_declarations content)
    [] 0]
  simp

/-- Claim C8: the zip scanner's split has one block per occurrence of
the literal `<?xml` — the offsets are exactly the occurrence positions,
each size is the distance to the next occurrence, consecutive blocks
are contiguous and the last runs to end of input; and a block whose
first 4096 bytes contain no extractable doc-number is counted as
skipped and contributes no entry. -/
theorem zip_split_and_skip_counting :
    (∀ content : List Nat,
      (split_xml_on_declarations content).map Prod.fst =
        (List.range content.length).filter (isMarkerAt content)) ∧
    (∀ content : List Nat,
      chainOk (split_xml_on_declarations content) = true) ∧
    (∀ content : List Nat, split_xml_on_declarations content ≠ [] →
      ∃ bl, (split_xml_on_declarations content).getLast? = some bl ∧
        bl.1 + bl.2 = content.length) ∧
    (∀ (E : ExtractEnv) (content : List Nat),
      processBlocks E content =
        ((split_xml_on_declarations content).filterMap (fun b =>
          (extract_patent_info E ((content.drop b.1).take b.2)).map
            (fun i => (b.1, b.2, i))),
         ((split_xml_on_declarations content).filter (fun b =>
          (extract_patent_info E ((content.drop b.1).take b.2)).isNone)).length)) ∧
    (∀ (E : ExtractEnv) (block : List Nat),
      extract_patent_info E block = none ↔
        E.pubRefDocNumber (block.take 4096) = none) := by
  have hsplit : ∀ content : List Nat, split_xml_on_declarations content =
      if (boundaries content).isEmpty then []
      else sizesOf (boundaries content) content.length := fun _ => rfl
  have hpair : ∀ content : List Nat,
      (boundaries content).Pairwise (· < ·) := by
    intro content
    rw [boundaries_eq_occ]
    exact (List.pairwise_lt_range _).filter _
  refine ⟨?_, ?_, ?_, processBlocks_spec, ?_⟩
  · intro content
    rw [hsplit]
    by_cases he : (boundaries content).isEmpty
    · rw [if_pos he]
      rw [List.isEmpty_iff] at he
      rw [← boundaries_eq_occ, he]
      rfl
    · rw [if_neg he, sizesOf_map_fst, boundaries_eq_occ]
  · intro content
    rw [hsplit]
    by_cases he : (boundaries content).isEmpty
    · rw [if_pos he]
      rfl
    · rw [if_neg he]
      exact sizesOf_chain _ _ (hpair content)
  · intro content hne
    rw [hsplit] at hne ⊢
    by_cases he : (boundaries content).isEmpty
    · rw [if_pos he] at hne
      exact absurd rfl hne
    · rw [if_neg he]
      apply sizesOf_last
      · exact fun hn => he (by simp [hn])
      · intro b hb
        rw [boundaries_eq_occ] at hb
        have := List.mem_range.mp (List.mem_filter.mp hb).1
        omega
  · intro E block
    unfold extract_patent_info
    cases hd : E.pubRefDocNumber (block.take 4096) <;> simp [hd]

/-- Witness for Claim C8 at a concrete byte string and extraction
environment: two markers, the second block lacking a doc-number. -/
theorem zip_split_and_skip_counting_witness :
    (split_xml_on_declarations
        ([60, 63, 120, 109, 108, 49] ++ [60, 63, 120, 109, 108])).map
      Prod.fst =
      (List.range 11).filter
        (isMarkerAt ([60, 63, 120, 109, 108, 49] ++ [60, 63, 120, 109, 108])) ∧
    (∃ bl, (split_xml_on_declarations
        ([60, 63, 120, 109, 108, 49] ++ [60, 63, 120, 109, 108])).getLast? =
        some bl ∧ bl.1 + bl.2 = 11) ∧
    (extract_patent_info
      ⟨fun bs => if bs.length ≤ 5 then none else some [49],
        fun _ => none, fun _ => none, fun _ => false, fun _ => false⟩
      [60, 63, 120, 109, 108] = none ↔
      (if (([60, 63, 120, 109, 108] : List Nat).take 4096).length ≤ 5 then
        none else some ([49] : List Nat)) = none) := by
  refine ⟨zip_split_and_skip_counting.1 _, ?_, ?_⟩
  · exact zip_split_and_skip_counting.2.2.1
      ([60, 63, 120, 109, 108, 49] ++ [60, 63, 120, 109, 108]) (by decide)
  · exact zip_split_and_skip_counting.2.2.2.2
      ⟨fun bs => if bs.length ≤ 5 then none else some [49],
        fun _ => none, fun _ => none, fun _ => false, fun _ => false⟩
      [60, 63, 120, 109, 108]

/-! Bulk-file skip decision of the indexing pipeline
(scan_arxiv_directory lines 312-318 and 345-351;
scan_uspto_directory lines 375-380 and 425-431 — the two scanners share
this logic verbatim). -/

/-- Environment of one scan run: the stored `bulk_files` rows, the
on-disk mtimes, and the full hash a worker would compute. -/
structure ScanEnv where
  processed : Str → Option (Str × Nat)
  diskMtime : Str → Nat
  fullHash : Str → Str

/-- What the pipeline does with one candidate bulk file. -/
inductive FileAction
  | skipCheap
  | discardAfterHash
  | index
deriving DecidableEq

/-- The per-file decision: skip without hashing when the stored mtime
matches the disk mtime; otherwise hash in the worker, and discard the
result when the hash matches the stored hash; otherwise index. -/
def scanDecision (env : ScanEnv) (f : Str) : FileAction :=
  match env.processed f with
  | some (h, m) =>
    if env.diskMtime f = m then .skipCheap
    else if env.fullHash f = h then .discardAfterHash
    else .index
  | none => .index

/-- The `bulk_files` row for `f` after the pipeline handles `f`:
unchanged on the cheap skip; unchanged (`continue`) on the hash-match
discard; replaced by the fresh hash/mtime when indexed. -/
def bulkRowAfter (env : ScanEnv) (f : Str) : Option (Str × Nat) :=
  match scanDecision env f with
  | .skipCheap => env.processed f
  | .discardAfterHash => env.processed f
  | .index => some (env.fullHash f, env.diskMtime f)

/-- Whether the worker recomputes the full hash for `f`. -/
def hashComputed (env : ScanEnv) (f : Str) : Bool :=
  scanDecision env f ≠ .skipCheap

/-- Claim C5 (counterexample): a stored row `("h", 1)` with disk mtime
`2` and unchanged content hash `"h"` — the scan result is discarded,
but the claim's asserted mtime refresh does not happen: both scanners
`continue` without touching the `bulk_files` row, leaving the stale
mtime `1`. -/
theorem scan_skip_refresh_cex :
    scanDecision ⟨fun _ => some ("h".data, 1), fun _ => 2,
      fun _ => "h".data⟩ "f".data = .discardAfterHash ∧
    bulkRowAfter ⟨fun _ => some ("h".data, 1), fun _ => 2,
      fun _ => "h".data⟩ "f".data = some ("h".data, 1) ∧
    some ("h".data, (1 : Nat)) ≠ some ("h".data, 2) := by
  refine ⟨by decide, by decide, by decide⟩

/-- Claim C5 (amended): if the on-disk mtime equals the stored
`last_modified`, the file is skipped without computing its hash;
otherwise the worker recomputes the full hash, and if that hash equals
the stored `file_hash` the scan result is discarded and the bulk-file
row is left unchanged (the new mtime is NOT written); only a changed
hash rewrites the row with the fresh hash and mtime. -/
theorem scan_skip_decision (env : ScanEnv) (f : Str) (h : Str × Nat)
    (hrow : env.processed f = some h) :
    (env.diskMtime f = h.2 →
      scanDecision env f = .skipCheap ∧ hashComputed env f = false ∧
      bulkRowAfter env f = some h) ∧
    (env.diskMtime f ≠ h.2 → hashComputed env f = true ∧
      (env.fullHash f = h.1 →
        scanDecision env f = .discardAfterHash ∧
        bulkRowAfter env f = some h) ∧
      (env.fullHash f ≠ h.1 →
        scanDecision env f = .index ∧
        bulkRowAfter env f = some (env.fullHash f, env.diskMtime f))) := by
  obtain ⟨hh, hm⟩ := h
  constructor
  · intro heq
    refine ⟨?_, ?_, ?_⟩ <;>
      simp [scanDecision, hashComputed, bulkRowAfter, hrow, heq]
  · intro hne
    refine ⟨?_, fun heq => ⟨?_, ?_⟩, fun hneq => ⟨?_, ?_⟩⟩
    · simp only [hashComputed, scanDecision, hrow, if_neg hne]
      split <;> simp
    all_goals simp_all [scanDecision, hashComputed, bulkRowAfter, hrow]

/-- Witness for the amended Claim C5 theorem at concrete environments
covering the cheap skip, the discard, and the index path. -/
theorem scan_skip_decision_witness :
    (scanDecision ⟨fun _ => some ("h".data, 5), fun _ => 5,
        fun _ => "h".data⟩ "f".data = .skipCheap ∧
      hashComputed ⟨fun _ => some ("h".data, 5), fun _ => 5,
        fun _ => "h".data⟩ "f".data = false ∧
      bulkRowAfter ⟨fun _ => some ("h".data, 5), fun _ => 5,
        fun _ => "h".data⟩ "f".data = some ("h".data, 5)) ∧
    (scanDecision ⟨fun _ => some ("h".data, 1), fun _ => 2,
        fun _ => "g".data⟩ "f".data = .index ∧
      bulkRowAfter ⟨fun _ => some ("h".data, 1), fun _ => 2,
        fun _ => "g".data⟩ "f".data = some ("g".data, 2)) :=
  ⟨(scan_skip_decision ⟨fun _ => some ("h".data, 5), fun _ => 5,
      fun _ => "h".data⟩ "f".data ("h".data, 5) rfl).1 rfl,
    ((scan_skip_decision ⟨fun _ => some ("h".data, 1), fun _ => 2,
      fun _ => "g".data⟩ "f".data ("h".data, 1) rfl).2
      (by decide)).2.2 (by decide)⟩

/-! Tiered retrieval engine: `PaperRetriever.get_source_by_id`
(retriever.py lines 506-642).  Disk, database, cache and network are
abstracted into an environment of read functions; the cache `put`
calls on the success paths mutate no observable part of a single
retrieval and are not modelled. -/

/-- `detect_content_type` (retriever.py lines 71-88), on bytes. -/
def detect_content_type (content : List Nat) : String :=
  if content.take 4 = [37, 80, 68, 70] then "application/pdf"
  else if content.take 2 = [31, 139] then "application/gzip"
  else if 262 ≤ content.length ∧
      (content.drop 257).take 5 = [117, 115, 116, 97, 114] then
    "application/x-tar"
  else "application/octet-stream"

/-- `get_format_from_file_type` (retriever.py lines 91-98). -/
def get_format_from_file_type (file_type : String) : String :=
  if file_type = "pdf" then "pdf"
  else if file_type = "gzip" ∨ file_type = "tar" then "source"
  else "unknown"

/-- A `paper_index` row as fetched by `_lookup_paper_metadata`. -/
structure DbRow where
  fileType : String
  year : Option Int
deriving DecidableEq

/-- The metadata dictionary shape used by `success_response` (from the
local database or from the upstream `/info` endpoint). -/
structure PaperMeta where
  paperId : Str
  fileType : String
  format : String
  year : Option Int
deriving DecidableEq

/-- Environment of one retrieval: database, cache, local archive reads,
upstream and arXiv responses, and the configuration flags. -/
structure RetEnv where
  metaRow : Str → Option DbRow
  cachePresent : Bool
  cacheGet : Str → Option (List Nat)
  tarRead : Str → Option (List Nat)
  upstreamAvail : Bool
  upstreamGet : Str → Option (List Nat)
  upstreamInfo : Str → Option PaperMeta
  arxivEnabled : Bool
  arxivPdf : Str → Option (List Nat)
  arxivSrc : Str → Option (List Nat)

/-- `_lookup_paper_metadata` (lines 209-232). -/
def lookupMeta (env : RetEnv) (pid : Str) : Option PaperMeta :=
  (env.metaRow pid).map (fun r =>
    ⟨pid, r.fileType, get_format_from_file_type r.fileType, r.year⟩)

/-- `_get_from_local` (lines 234-256): nothing without a manifest row;
otherwise the byte-range read (`none` models a missing tar or I/O
error). -/
def getFromLocal (env : RetEnv) (pid : Str) : Option (List Nat) :=
  match lookupMeta env pid with
  | none => none
  | some _ => env.tarRead pid

/-- `_get_info_from_upstream` (lines 285-310). -/
def getInfoFromUpstream (env : RetEnv) (pid : Str) : Option PaperMeta :=
  if env.upstreamAvail then env.upstreamInfo pid else none

/-- `_resolve_paper_id` (lines 424-441). -/
def resolvePaperId (pid : Str) : Str × Option Nat × Bool :=
  let p := parse_paper_id pid
  match p.2 with
  | some v => (p.1 ++ 'v' :: natToStr v, some v, true)
  | none => (p.1, none, false)

/-- The old-format recognition `^([a-z-]+)(\d+)$` (IGNORECASE) used to
restore the slash for arXiv URLs (lines 336-341). -/
def oldFormatSplit (base : Str) : Option (Str × Str) :=
  let cat := base.takeWhile catChar
  let num := base.dropWhile catChar
  if !cat.isEmpty && !num.isEmpty && num.all pyDigit then some (cat, num)
  else none

/-- `_get_from_arxiv` (lines 312-371): the arXiv identifier (slash
restored for legacy ids, version appended when truthy), a PDF attempt
accepted only on a `%PDF` body, then a source attempt accepted on a
non-empty body, both gated by the format filter. -/
def getFromArxiv (env : RetEnv) (paper_id : Str) (fmt : Option String) :
    Option (List Nat × String) :=
  if env.arxivEnabled then
    let p := parse_paper_id paper_id
    let withVer (s : Str) : Str :=
      match p.2 with
      | some v => if v ≠ 0 then s ++ 'v' :: natToStr v else s
      | none => s
    let arxivId :=
      match oldFormatSplit p.1 with
      | some (cat, num) => withVer (cat ++ '/' :: num)
      | none => withVer p.1
    let tryPdf := fmt = none ∨ fmt = some "preferred" ∨ fmt = some "pdf"
    let trySrc := fmt = none ∨ fmt = some "preferred" ∨ fmt = some "source"
    let pdfRes : Option (List Nat × String) :=
      if tryPdf then
        match env.arxivPdf arxivId with
        | some b =>
          if b.take 4 = [37, 80, 68, 70] then some (b, "arxiv_pdf") else none
        | none => none
      else none
    match pdfRes with
    | some r => some r
    | none =>
      if trySrc then
        match env.arxivSrc arxivId with
        | some b => if b ≠ [] then some (b, "arxiv_source") else none
        | none => none
      else none
  else none

/-- The response dictionary of `get_source_by_id`; error responses
carry only the `content`/`content_type`/`error` fields. -/
structure Response where
  content : Option (List Nat)
  contentType : Option String
  error : Option String
  paperId : Option Str
  fileType : Option String
  format : Option String
  year : Option Int
  version : Option Nat
  source : Option String
deriving DecidableEq

/-- An error return `{"content": None, "content_type": None,
"error": e}`. -/
def errorResponse (e : String) : Response :=
  ⟨none, none, some e, none, none, none, none, none, none⟩

/-- The `success_response` closure (lines 568-585). -/
def successResponse (lookupId : Str) (reqVer : Option Nat)
    (content : List Nat) (source : String) (meta : Option PaperMeta) :
    Response :=
  let ct := detect_content_type content
  let ft := if ct = "application/pdf" then "pdf"
    else if ct = "application/gzip" then "gzip"
    else if ct = "application/x-tar" then "tar" else "unknown"
  let fm := if ft = "pdf" then "pdf"
    else if ft = "gzip" ∨ ft = "tar" then "source" else "unknown"
  { content := some content, contentType := some ct, error := none,
    paperId := some (match meta with | some m => m.paperId | none => lookupId),
    fileType := some (match meta with | some m => m.fileType | none => ft),
    format := some (match meta with | some m => m.format | none => fm),
    year := (match meta with | some m => m.year | none => none),
    version := reqVer, source := some source }

/-- The resolution prefix of `get_source_by_id` (lines 539-565):
lookup key, requested version, the `try_arxiv_for_version` flag, the
base-key fallback, and the `local_format_mismatch` flag. -/
structure Resolved where
  lookupId : Str
  reqVer : Option Nat
  verRequired : Bool
  tryArxivForVersion : Bool
  metadata : Option PaperMeta
  mismatch : Bool
deriving DecidableEq

/-- The `local_format_mismatch` test (lines 556-565). -/
def mismatchOf (metadata : Option PaperMeta) (fmt : Option String) : Bool :=
  match metadata, fmt with
  | some m, some f =>
    if f ≠ "" ∧ f ≠ "preferred" then
      if f = "pdf" ∧ m.format ≠ "pdf" then true
      else if f = "source" ∧ m.format ≠ "source" then true
      else false
    else false
  | _, _ => false

def resolve (env : RetEnv) (pid : Str) (fmt : Option String) : Resolved :=
  let rp := resolvePaperId pid
  let base := (parse_paper_id pid).1
  let meta0 := lookupMeta env rp.1
  let tryArxiv := meta0.isNone && rp.2.2
  let li := if meta0.isNone then base else rp.1
  let metadata := if meta0.isNone then lookupMeta env base else meta0
  ⟨li, rp.2.1, rp.2.2, tryArxiv, metadata, mismatchOf metadata fmt⟩

/-- The format check applied to bytes fetched from upstream or arXiv
(lines 604-608 and 624-628). -/
def fmtBlocks (fmt : Option String) (content : List Nat) : Bool :=
  match fmt with
  | some f =>
    if f ≠ "" ∧ f ≠ "preferred" then
      decide (f ≠ (if detect_content_type content = "application/pdf"
        then "pdf" else "source"))
    else false
  | none => false

/-- The final error classification (lines 637-642). -/
def finalError (r : Resolved) : Response :=
  if r.tryArxivForVersion then errorResponse "version_not_found"
  else if r.mismatch then errorResponse "format_unavailable"
  else errorResponse "not_found"

/-- The retrieval tiers, in fallback order. -/
inductive Tier | cache | local | upstream | origin
deriving DecidableEq

def tierRank : Tier → Nat
  | .cache => 0
  | .local => 1
  | .upstream => 2
  | .origin => 3

/-- The arXiv-origin step (lines 617-635), paired with its consultation
trace. -/
def arxivPhase (env : RetEnv) (pid : Str) (fmt : Option String)
    (r : Resolved) : Response × List Tier :=
  if env.arxivEnabled then
    match getFromArxiv env pid fmt with
    | some (content, srcType) =>
      if fmtBlocks fmt content then
        (errorResponse "format_unavailable", [.origin])
      else (successResponse r.lookupId r.reqVer content srcType none,
        [.origin])
    | none => (finalError r, [.origin])
  else (finalError r, [])

/-- The upstream step (lines 600-615), falling through to the origin
step. -/
def upstreamPhase (env : RetEnv) (pid : Str) (fmt : Option String)
    (r : Resolved) : Response × List Tier :=
  if env.upstreamAvail then
    match env.upstreamGet r.lookupId with
    | some content =>
      if fmtBlocks fmt content then
        (errorResponse "format_unavailable", [.upstream])
      else (successResponse r.lookupId r.reqVer content "upstream"
        (getInfoFromUpstream env pid), [.upstream])
    | none =>
      let a := arxivPhase env pid fmt r
      (a.1, .upstream :: a.2)
  else arxivPhase env pid fmt r

/-- The tier cascade of `get_source_by_id` (lines 587-642) after the
resolution prefix produced `r`. -/
def getCore (env : RetEnv) (pid : Str) (fmt : Option String)
    (r : Resolved) : Response × List Tier :=
  if r.mismatch = false then
    if env.cachePresent then
      match env.cacheGet r.lookupId with
      | some content =>
        (successResponse r.lookupId r.reqVer content "cache" r.metadata,
          [.cache])
      | none =>
        match getFromLocal env r.lookupId with
        | some content =>
          (successResponse r.lookupId r.reqVer content "local" r.metadata,
            [.cache, .local])
        | none =>
          let u := upstreamPhase env pid fmt r
          (u.1, .cache :: .local :: u.2)
    else
      match getFromLocal env r.lookupId with
      | some content =>
        (successResponse r.lookupId r.reqVer content "local" r.metadata,
          [.local])
      | none =>
        let u := upstreamPhase env pid fmt r
        (u.1, .local :: u.2)
  else
    upstreamPhase env pid fmt r

/-- `get_source_by_id` (retriever.py lines 506-642), returning the
response together with the list of tiers actually consulted. -/
def get_source_by_id (env : RetEnv) (pid : Str) (fmt : Option String) :
    Response × List Tier :=
  getCore env pid fmt (resolve env pid fmt)

/-- A tier is bypassed when its configuration switch is off, or — for
the cache and local tiers — when the `local_format_mismatch` flag
skips straight to upstream. -/
def bypassed (env : RetEnv) (r : Resolved) : Tier → Bool
  | .cache => !env.cachePresent || r.mismatch
  | .local => r.mismatch
  | .upstream => !env.upstreamAvail
  | .origin => !env.arxivEnabled

/-- The content each tier would produce for the resolved lookup key. -/
def tierOutcome (env : RetEnv) (pid : Str) (fmt : Option String)
    (r : Resolved) : Tier → Option (List Nat)
  | .cache => env.cacheGet r.lookupId
  | .local => getFromLocal env r.lookupId
  | .upstream => env.upstreamGet r.lookupId
  | .origin => (getFromArxiv env pid fmt).map Prod.fst

/-- Every tier strictly before `t` is bypassed or produced nothing. -/
def priorMiss (env : RetEnv) (r : Resolved) : Tier → Bool
  | .cache => true
  | .local => bypassed env r .cache || (env.cacheGet r.lookupId).isNone
  | .upstream =>
    (bypassed env r .cache || (env.cacheGet r.lookupId).isNone) &&
    (bypassed env r .local || (getFromLocal env r.lookupId).isNone)
  | .origin =>
    (bypassed env r .cache || (env.cacheGet r.lookupId).isNone) &&
    (bypassed env r .local || (getFromLocal env r.lookupId).isNone) &&
    (bypassed env r .upstream || (env.upstreamGet r.lookupId).isNone)

/-- A tier is consulted iff it is not bypassed and all prior tiers
missed. -/
def consultedB (env : RetEnv) (r : Resolved) (t : Tier) : Bool :=
  !bypassed env r t && priorMiss env r t

lemma arxivPhase_snd (env : RetEnv) (pid : Str) (fmt : Option String)
    (r : Resolved) :
    (arxivPhase env pid fmt r).2 =
      if env.arxivEnabled then [Tier.origin] else [] := by
  unfold arxivPhase
  cases hax : env.arxivEnabled
  · rfl
  · simp only [if_true]
    cases hg : getFromArxiv env pid fmt with
    | none => rfl
    | some p =>
      cases p with
      | mk c s => by_cases hb : fmtBlocks fmt c <;> simp [hb]

/-- The consultation trace of the upstream-then-origin tail. -/
def tailTrace (env : RetEnv) (r : Resolved) : List Tier :=
  if env.upstreamAvail then
    match env.upstreamGet r.lookupId with
    | some _ => [Tier.upstream]
    | none =>
      Tier.upstream :: (if env.arxivEnabled then [Tier.origin] else [])
  else if env.arxivEnabled then [Tier.origin] else []

lemma upstreamPhase_snd (env : RetEnv) (pid : Str) (fmt : Option String)
    (r : Resolved) :
    (upstreamPhase env pid fmt r).2 = tailTrace env r := by
  unfold upstreamPhase tailTrace
  cases hua : env.upstreamAvail
  · exact arxivPhase_snd env pid fmt r
  · simp only [if_true]
    cases hug : env.upstreamGet r.lookupId with
    | none => simp [arxivPhase_snd]
    | some c => by_cases hb : fmtBlocks fmt c <;> simp [hb]

lemma getCore_snd (env : RetEnv) (pid : Str) (fmt : Option String)
    (r : Resolved) :
    (getCore env pid fmt r).2 =
      [Tier.cache, Tier.local, Tier.upstream, Tier.origin].filter
        (consultedB env r) := by
  unfold getCore
  cases hm : r.mismatch
  · rw [if_pos rfl]
    cases hcp : env.cachePresent
    · rw [if_neg (by simp)]
      cases hl : getFromLocal env r.lookupId with
      | some c =>
        simp [List.filter, consultedB, priorMiss, bypassed, hm, hcp, hl]
      | none =>
        show Tier.local :: (upstreamPhase env pid fmt r).2 =
          List.filter (consultedB env r)
            [Tier.cache, Tier.local, Tier.upstream, Tier.origin]
        rw [upstreamPhase_snd]
        cases hua : env.upstreamAvail
        · cases hax : env.arxivEnabled <;>
            simp [tailTrace, List.filter, consultedB, priorMiss, bypassed,
              hm, hcp, hl, hua, hax]
        · cases hug : env.upstreamGet r.lookupId with
          | none =>
            cases hax : env.arxivEnabled <;>
              simp [tailTrace, List.filter, consultedB, priorMiss, bypassed,
                hm, hcp, hl, hua, hug, hax]
          | some c =>
            simp [tailTrace, List.filter, consultedB, priorMiss, bypassed,
              hm, hcp, hl, hua, hug]
    · rw [if_pos rfl]
      cases hcg : env.cacheGet r.lookupId with
      | some c =>
        simp [List.filter, consultedB, priorMiss, bypassed, hm, hcp, hcg]
      | none =>
        cases hl : getFromLocal env r.lookupId with
        | some c =>
          simp [List.filter, consultedB, priorMiss, bypassed, hm, hcp, hcg, hl]
        | none =>
          show Tier.cache :: Tier.local :: (upstreamPhase env pid fmt r).2 =
            List.filter (consultedB env r)
              [Tier.cache, Tier.local, Tier.upstream, Tier.origin]
          rw [upstreamPhase_snd]
          cases hua : env.upstreamAvail
          · cases hax : env.arxivEnabled <;>
              simp [tailTrace, List.filter, consultedB, priorMiss, bypassed,
                hm, hcp, hcg, hl, hua, hax]
          · cases hug : env.upstreamGet r.lookupId with
            | none =>
              cases hax : env.arxivEnabled <;>
                simp [tailTrace, List.filter, consultedB, priorMiss, bypassed,
                  hm, hcp, hcg, hl, hua, hug, hax]
            | some c =>
              simp [tailTrace, List.filter, consultedB, priorMiss, bypassed,
                hm, hcp, hcg, hl, hua, hug]
  · rw [if_neg (by simp)]
    rw [upstreamPhase_snd]
    cases hua : env.upstreamAvail
    · cases hax : env.arxivEnabled <;>
        simp [tailTrace, List.filter, consultedB, priorMiss, bypassed,
          hm, hua, hax]
    · cases hug : env.upstreamGet r.lookupId with
      | none =>
        cases hax : env.arxivEnabled <;>
          simp [tailTrace, List.filter, consultedB, priorMiss, bypassed,
            hm, hua, hug, hax]
      | some c =>
        simp [tailTrace, List.filter, consultedB, priorMiss, bypassed,
          hm, hua, hug]

lemma consultedB_bypassed (env : RetEnv) (r : Resolved) (t : Tier)
    (h : consultedB env r t = true) : bypassed env r t = false := by
  simp only [consultedB, Bool.and_eq_true, Bool.not_eq_true'] at h
  exact h.1

lemma consulted_prior (env : RetEnv) (pid : Str) (fmt : Option String)
    (r : Resolved) (t t2 : Tier) (hc : consultedB env r t = true)
    (hlt : tierRank t2 < tierRank t) (hb : bypassed env r t2 = false) :
    consultedB env r t2 = true ∧ tierOutcome env pid fmt r t2 = none := by
  cases t
  · cases t2 <;> simp [tierRank] at hlt
  · -- consulted tier: local
    cases t2
    · simp only [consultedB, priorMiss, Bool.and_eq_true, Bool.or_eq_true] at hc
      rcases hc.2 with h | h
      · rw [hb] at h; cases h
      · refine ⟨by simp [consultedB, priorMiss, hb], ?_⟩
        simpa [tierOutcome, Option.isNone_iff_eq_none] using h
    · simp [tierRank] at hlt
    · simp [tierRank] at hlt
    · simp [tierRank] at hlt
  · -- consulted tier: upstream
    cases t2
    · simp only [consultedB, priorMiss, Bool.and_eq_true, Bool.or_eq_true] at hc
      rcases hc.2.1 with h | h
      · rw [hb] at h; cases h
      · refine ⟨by simp [consultedB, priorMiss, hb], ?_⟩
        simpa [tierOutcome, Option.isNone_iff_eq_none] using h
    · simp only [consultedB, priorMiss, Bool.and_eq_true, Bool.or_eq_true] at hc
      rcases hc.2.2 with h | h
      · rw [hb] at h; cases h
      · refine ⟨?_, by simpa [tierOutcome, Option.isNone_iff_eq_none] using h⟩
        simp only [consultedB, priorMiss, Bool.and_eq_true, Bool.not_eq_true',
          Bool.or_eq_true]
        exact ⟨hb, hc.2.1⟩
    · simp [tierRank] at hlt
    · simp [tierRank] at hlt
  · -- consulted tier: origin
    cases t2
    · simp only [consultedB, priorMiss, Bool.and_eq_true, Bool.or_eq_true] at hc
      rcases hc.2.1.1 with h | h
      · rw [hb] at h; cases h
      · refine ⟨by simp [consultedB, priorMiss, hb], ?_⟩
        simpa [tierOutcome, Option.isNone_iff_eq_none] using h
    · simp only [consultedB, priorMiss, Bool.and_eq_true, Bool.or_eq_true] at hc
      rcases hc.2.1.2 with h | h
      · rw [hb] at h; cases h
      · refine ⟨?_, by simpa [tierOutcome, Option.isNone_iff_eq_none] using h⟩
        simp only [consultedB, priorMiss, Bool.and_eq_true, Bool.not_eq_true',
          Bool.or_eq_true]
        exact ⟨hb, hc.2.1.1⟩
    · simp only [consultedB, priorMiss, Bool.and_eq_true, Bool.or_eq_true] at hc
      rcases hc.2.2 with h | h
      · rw [hb] at h; cases h
      · refine ⟨?_, by simpa [tierOutcome, Option.isNone_iff_eq_none] using h⟩
        simp only [consultedB, priorMiss, Bool.and_eq_true, Bool.not_eq_true',
          Bool.or_eq_true]
        exact ⟨hb, hc.2.1.1, hc.2.1.2⟩
    · simp [tierRank] at hlt

lemma tier_base_pairwise :
    [Tier.cache, Tier.local, Tier.upstream, Tier.origin].Pairwise
      (fun a b => tierRank a < tierRank b) := by
  decide

lemma tier_mem_all (t : Tier) :
    t ∈ [Tier.cache, Tier.local, Tier.upstream, Tier.origin] := by
  cases t <;> simp

/-- C1: for every retrieval via `get_source_by_id`, the fallback tiers
are consulted in the strict order cache, local, upstream, origin
(strictly increasing `tierRank` along the consultation trace); a tier
is consulted only if every earlier non-bypassed tier was itself
consulted and returned no content; and on a cache hit the result
carries source "cache" and the trace is exactly `[cache]` — local,
upstream and origin are never consulted. -/
theorem tier_fallback_order (env : RetEnv) (pid : Str) (fmt : Option String) :
    List.Chain' (fun a b => tierRank a < tierRank b)
      (get_source_by_id env pid fmt).2 ∧
    (∀ t ∈ (get_source_by_id env pid fmt).2,
      bypassed env (resolve env pid fmt) t = false) ∧
    (∀ t ∈ (get_source_by_id env pid fmt).2, ∀ t2 : Tier,
      tierRank t2 < tierRank t →
      bypassed env (resolve env pid fmt) t2 = false →
      t2 ∈ (get_source_by_id env pid fmt).2 ∧
      tierOutcome env pid fmt (resolve env pid fmt) t2 = none) ∧
    (bypassed env (resolve env pid fmt) Tier.cache = false →
      ∀ b, tierOutcome env pid fmt (resolve env pid fmt) Tier.cache = some b →
      (get_source_by_id env pid fmt).1.source = some "cache" ∧
      (get_source_by_id env pid fmt).2 = [Tier.cache]) := by
  have hsnd : (get_source_by_id env pid fmt).2 =
      [Tier.cache, Tier.local, Tier.upstream, Tier.origin].filter
        (consultedB env (resolve env pid fmt)) :=
    getCore_snd env pid fmt (resolve env pid fmt)
  refine ⟨?_, ?_, ?_, ?_⟩
  · rw [hsnd]
    exact (tier_base_pairwise.filter _).chain'
  · intro t ht
    rw [hsnd] at ht
    exact consultedB_bypassed env (resolve env pid fmt) t
      (List.mem_filter.1 ht).2
  · intro t ht t2 hlt hb
    rw [hsnd] at ht
    obtain ⟨h1, h2⟩ := consulted_prior env pid fmt (resolve env pid fmt) t t2
      (List.mem_filter.1 ht).2 hlt hb
    refine ⟨?_, h2⟩
    rw [hsnd]
    exact List.mem_filter.2 ⟨tier_mem_all t2, h1⟩
  · intro hby b hout
    have h2 : (!env.cachePresent || (resolve env pid fmt).mismatch) = false :=
      hby
    have hcp : env.cachePresent = true := by
      cases h : env.cachePresent
      · rw [h] at h2; simp at h2
      · rfl
    have hm : (resolve env pid fmt).mismatch = false := by
      cases h : (resolve env pid fmt).mismatch
      · rfl
      · rw [h] at h2; simp at h2
    have hout2 : env.cacheGet (resolve env pid fmt).lookupId = some b := hout
    constructor
    · show (getCore env pid fmt (resolve env pid fmt)).1.source = _
      unfold getCore
      rw [if_pos hm, if_pos hcp, hout2]
      rfl
    · show (getCore env pid fmt (resolve env pid fmt)).2 = _
      unfold getCore
      rw [if_pos hm, if_pos hcp, hout2]

/-- A one-paper environment whose cache holds a PDF blob: the cache
tier hits. -/
def envW : RetEnv :=
  { metaRow := fun _ => none, cachePresent := true,
    cacheGet := fun _ => some [37, 80, 68, 70],
    tarRead := fun _ => none, upstreamAvail := false,
    upstreamGet := fun _ => none, upstreamInfo := fun _ => none,
    arxivEnabled := false, arxivPdf := fun _ => none,
    arxivSrc := fun _ => none }

theorem tier_fallback_order_witness :
    (get_source_by_id envW (['x'] : Str) none).1.source = some "cache" ∧
    (get_source_by_id envW (['x'] : Str) none).2 = [Tier.cache] :=
  (tier_fallback_order envW (['x'] : Str) none).2.2.2 (by decide)
    [37, 80, 68, 70] (by decide)

/-- Spec-side reading of the format filter: an entry's format fails
the filter when a filter is set (non-empty, not "preferred") and
differs from the entry's format. -/
def filterMismatch (fmt : Option String) (m : PaperMeta) : Bool :=
  match fmt with
  | some f =>
    if f ≠ "" ∧ f ≠ "preferred" then
      if f = "pdf" then decide (m.format ≠ "pdf")
      else if f = "source" then decide (m.format ≠ "source")
      else false
    else false
  | none => false

lemma mismatchOf_iff (mo : Option PaperMeta) (fmt : Option String) :
    mismatchOf mo fmt = true ↔
      ∃ m, mo = some m ∧ filterMismatch fmt m = true := by
  cases mo with
  | none => cases fmt <;> simp [mismatchOf]
  | some m =>
    cases fmt with
    | none => simp [mismatchOf, filterMismatch]
    | some f =>
      simp only [mismatchOf, filterMismatch, Option.some.injEq,
        exists_eq_left']
      split_ifs <;> simp_all

lemma resolve_mismatch_eq (env : RetEnv) (pid : Str) (fmt : Option String) :
    (resolve env pid fmt).mismatch =
      mismatchOf (resolve env pid fmt).metadata fmt := rfl

lemma resolve_tryArxiv_iff (env : RetEnv) (pid : Str) (fmt : Option String) :
    (resolve env pid fmt).tryArxivForVersion = true ↔
      ((parse_paper_id pid).2.isSome = true ∧
        lookupMeta env (resolvePaperId pid).1 = none) := by
  rcases hpp : parse_paper_id pid with ⟨b, vo⟩
  simp only [resolve, resolvePaperId, hpp]
  cases vo <;>
    simp [Bool.and_eq_true, Option.isNone_iff_eq_none, and_comm]

/-- The spec's scenario 2: the manifest holds only the base id
`1501.00963` and every fallback is disabled. -/
def envScenario : RetEnv :=
  { metaRow := fun s =>
      if s = "1501.00963".data then some ⟨"tar", some 2015⟩ else none,
    cachePresent := false, cacheGet := fun _ => none,
    tarRead := fun _ => none, upstreamAvail := false,
    upstreamGet := fun _ => none, upstreamInfo := fun _ => none,
    arxivEnabled := false, arxivPdf := fun _ => none,
    arxivSrc := fun _ => none }

def scenId : Str := "arXiv:1501.00963v3".data

/-- C2: when every tier produces no content, the error is chosen by
precedence: "version_not_found" when the identifier carried a version
and the versioned key was absent from the manifest; otherwise
"format_unavailable" when a manifest entry existed but its format
failed the requested filter; otherwise "not_found".  In particular,
with the manifest holding only `1501.00963` and all fallbacks
disabled, requesting `arXiv:1501.00963v3` yields
"version_not_found". -/
theorem error_classification (env : RetEnv) (pid : Str) (fmt : Option String)
    (hcg : ∀ k, env.cacheGet k = none)
    (htr : ∀ k, env.tarRead k = none)
    (hug : ∀ k, env.upstreamGet k = none)
    (hap : ∀ k, env.arxivPdf k = none)
    (hasrc : ∀ k, env.arxivSrc k = none) :
    (get_source_by_id env pid fmt).1 =
      (if (resolve env pid fmt).tryArxivForVersion then
        errorResponse "version_not_found"
      else if (resolve env pid fmt).mismatch then
        errorResponse "format_unavailable"
      else errorResponse "not_found") ∧
    ((resolve env pid fmt).tryArxivForVersion = true ↔
      (parse_paper_id pid).2.isSome = true ∧
      lookupMeta env (resolvePaperId pid).1 = none) ∧
    ((resolve env pid fmt).mismatch = true ↔
      ∃ m, (resolve env pid fmt).metadata = some m ∧
        filterMismatch fmt m = true) ∧
    (get_source_by_id envScenario scenId none).1 =
      errorResponse "version_not_found" ∧
    (get_source_by_id envScenario scenId none).2 = [Tier.local] := by
  have hloc : ∀ k, getFromLocal env k = none := by
    intro k
    unfold getFromLocal
    cases h : lookupMeta env k
    · rfl
    · exact htr k
  have harx : getFromArxiv env pid fmt = none := by
    simp [getFromArxiv, hap, hasrc]
  have harxp : ∀ r, (arxivPhase env pid fmt r).1 = finalError r := by
    intro r
    unfold arxivPhase
    cases hax : env.arxivEnabled
    · rfl
    · simp only [if_true, harx]
  have hup : ∀ r, (upstreamPhase env pid fmt r).1 = finalError r := by
    intro r
    unfold upstreamPhase
    cases hua : env.upstreamAvail
    · exact harxp r
    · simp only [if_true, hug]
      exact harxp r
  refine ⟨?_, resolve_tryArxiv_iff env pid fmt, ?_, ?_, ?_⟩
  · show (getCore env pid fmt (resolve env pid fmt)).1 =
      finalError (resolve env pid fmt)
    generalize resolve env pid fmt = r
    unfold getCore
    cases hm : r.mismatch
    · rw [if_pos rfl]
      cases hcp : env.cachePresent
      · rw [if_neg (by simp)]
        rw [hloc r.lookupId]
        exact hup r
      · rw [if_pos rfl]
        rw [hcg r.lookupId, hloc r.lookupId]
        exact hup r
    · rw [if_neg (by simp)]
      exact hup r
  · rw [resolve_mismatch_eq]
    exact mismatchOf_iff _ _
  · decide
  · decide

theorem error_classification_witness :
    (get_source_by_id envScenario scenId none).1 =
      errorResponse "version_not_found" := by
  have h := (error_classification envScenario scenId none (fun _ => rfl)
    (fun _ => rfl) (fun _ => rfl) (fun _ => rfl) (fun _ => rfl)).1
  rw [h]
  decide
